import Mathlib

/-!
# spread2json — verification of the core mapping engine

Shallow embedding of the core of the `spread2json` library
(`src/index.ts`): the attribute parser, the type-coercion registry,
the grid folder (`_format`), the cross-sheet linker (`_findOrigin` /
`toJson`), the record flattener (`toCells`) and the schema-to-format
convertor (`convertSchema2Format`), together with theorems about them.

JavaScript values that flow through the engine are modelled by `JVal`.
JS numbers are modelled by integers plus an explicit `nan`; the cell
values exercised by the engine are integer literals, so fractional
numbers are outside the modelled scope and coerce to `nan`.
-/

/-- A JSON-like JavaScript value.  `undef` models JS `undefined`
(absent properties, sparse-array holes). -/
inductive JVal where
  | num (n : Int)
  | nan
  | str (s : String)
  | bool (b : Bool)
  | null
  | undef
  | arr (elems : List JVal)
  | obj (fields : List (String × JVal))
deriving Repr

/-- JS truthiness: `undefined`, `null`, `false`, `0`, `NaN` and `""`
are falsy; every object and array (even empty) is truthy. -/
def jsTruthy : JVal → Bool
  | .num n => n != 0
  | .nan => false
  | .str s => s ≠ ""
  | .bool b => b
  | .null => false
  | .undef => false
  | .arr _ => true
  | .obj _ => true

/-- JS `String(x)` conversion on the modelled values. -/
def jsToString : JVal → String
  | .num n => toString n
  | .nan => "NaN"
  | .str s => s
  | .bool b => if b then "true" else "false"
  | .null => "null"
  | .undef => "undefined"
  | .arr _ => ""
  | .obj _ => "[object Object]"

/-- Is a character a decimal digit? -/
def isDigitChar (c : Char) : Bool := '0' ≤ c ∧ c ≤ '9'

/-- Digits of a string interpreted as a natural number (the string must
be non-empty and all digits). -/
def digitsToNat (cs : List Char) : Nat :=
  cs.foldl (fun acc c => acc * 10 + (c.toNat - '0'.toNat)) 0

/-- JSON/JS whitespace (the ASCII fragment). -/
def isWsChar (c : Char) : Bool := c = ' ' ∨ c = '\t' ∨ c = '\n' ∨ c = '\r'

/-- The character list of `s` with surrounding whitespace removed. -/
def trimChars (s : String) : List Char :=
  ((s.toList.dropWhile isWsChar).reverse.dropWhile isWsChar).reverse

/-- `String.prototype.split` with a one-character separator (the only
form the engine uses): splitting keeps empty pieces and the empty
string splits to `[""]`, as in JS. -/
def splitChar (sep : Char) (s : String) : List String :=
  let rec go (acc : List Char) : List Char → List String
    | [] => [String.mk acc.reverse]
    | c :: rest => if c = sep then String.mk acc.reverse :: go [] rest else go (c :: acc) rest
  go [] s.toList

/-- ASCII lower-casing (non-ASCII letters are outside the modelled
scope of `toLowerCase`). -/
def asciiLowerChar (c : Char) : Char :=
  if 'A' ≤ c ∧ c ≤ 'Z' then Char.ofNat (c.toNat + 32) else c

/-- ASCII `toLowerCase`. -/
def asciiLower (s : String) : String := String.mk (s.toList.map asciiLowerChar)

/-- The `/^c/` test for a single character `c`. -/
def headIs (s : String) (c : Char) : Bool :=
  match s.toList with
  | x :: _ => x = c
  | [] => false

/-- JS `Number(s)` for a string, restricted to the modelled fragment:
optional sign followed by decimal digits (after trimming), and the
empty string which converts to `0`.  Everything else (including
fractional and exponent forms, which the engine's cells never carry)
is out of the modelled scope and yields `none`, i.e. `NaN`. -/
def jsStringToNumber (s : String) : Option Int :=
  let t := trimChars s
  match t with
  | [] => some 0
  | '-' :: rest =>
      if rest ≠ [] ∧ rest.all isDigitChar then some (-(digitsToNat rest : Int)) else none
  | '+' :: rest =>
      if rest ≠ [] ∧ rest.all isDigitChar then some (digitsToNat rest : Int) else none
  | cs =>
      if cs.all isDigitChar then some (digitsToNat cs : Int) else none

/-- JS `Number(x)` on the modelled values (arrays and objects are out
of the modelled scope and yield `NaN`). -/
def jsToNumber : JVal → Option Int
  | .num n => some n
  | .nan => none
  | .str s => jsStringToNumber s
  | .bool b => some (if b then 1 else 0)
  | .null => some 0
  | _ => none

/-!
## Type-coercion registry (`_parser` / `_stringify` in the source)
-/

/-- `_parser.string`: `String(d)`. -/
def coerceString (d : JVal) : JVal := .str (jsToString d)

/-- `_parser.number`: `Number(d)`. -/
def coerceNumber (d : JVal) : JVal :=
  match jsToNumber d with
  | some n => .num n
  | none => .nan

/-- `_parser.boolean`: `false` for boolean `false`, for strings whose
lower-casing is `"false"` and for `"0"`; otherwise the truthiness of
the input. -/
def coerceBoolean (d : JVal) : JVal :=
  match d with
  | .bool b => .bool b
  | .str s => .bool (asciiLower s ≠ "false" ∧ s ≠ "0")
  | _ => .bool (jsTruthy d)

/-- Days-from-civil (proleptic Gregorian), used by the date coercions.
Only dates at/after 1970-01-01 are in the modelled scope. -/
def daysFromCivil (y m d : Int) : Int :=
  let y' := if m ≤ 2 then y - 1 else y
  let era := (if y' ≥ 0 then y' else y' - 399) / 400
  let yoe := y' - era * 400
  let mp := (m + 9) % 12
  let doy := (153 * mp + 2) / 5 + d - 1
  let doe := yoe * 365 + yoe / 4 - yoe / 100 + doy
  era * 146097 + doe - 719468

/-- Civil date from days since 1970-01-01 (inverse of `daysFromCivil`). -/
def civilFromDays (z : Int) : Int × Int × Int :=
  let z' := z + 719468
  let era := (if z' ≥ 0 then z' else z' - 146096) / 146097
  let doe := z' - era * 146097
  let yoe := (doe - doe / 1460 + doe / 36524 - doe / 146096) / 365
  let y := yoe + era * 400
  let doy := doe - (365 * yoe + yoe / 4 - yoe / 100)
  let mp := (5 * doy + 2) / 153
  let d := doy - (153 * mp + 2) / 5 + 1
  let m := if mp < 10 then mp + 3 else mp - 9
  (if m ≤ 2 then y + 1 else y, m, d)

/-- `_parser.date`: `new Date(d).getTime()`.  Modelled for strings of
the library's own `YYYY/MM/DD hh:mm:ss` export format, interpreted in
UTC; all other inputs are out of the modelled scope and yield `NaN`. -/
def jsDateParse (s : String) : Option Int :=
  match splitChar ' ' s with
  | [ymd, hms] =>
    match splitChar '/' ymd, splitChar ':' hms with
    | [y, mo, d], [h, mi, se] =>
      match jsStringToNumber y, jsStringToNumber mo, jsStringToNumber d,
            jsStringToNumber h, jsStringToNumber mi, jsStringToNumber se with
      | some y, some mo, some d, some h, some mi, some se =>
        some ((((daysFromCivil y mo d * 24 + h) * 60 + mi) * 60 + se) * 1000)
      | _, _, _, _, _, _ => none
    | _, _ => none
  | _ => none

/-- `_parser.date` on a `JVal`. -/
def coerceDate (d : JVal) : JVal :=
  match d with
  | .str s => match jsDateParse s with
              | some ms => .num ms
              | none => .nan
  | .num n => .num n
  | _ => .nan

/-- `_parser.auto`: the numeric coercion when `Number(d)` is not `NaN`,
otherwise the input unchanged. -/
def coerceAuto (d : JVal) : JVal :=
  match jsToNumber d with
  | some _ => coerceNumber d
  | none => d

/-- The ingest registry `_parser`, keyed by lower-case type name.
Lookups of names outside the registry yield `none` (the folder then
stores the raw string). -/
def coerceRegistry (ty : String) : Option (JVal → JVal) :=
  if ty = "string" then some coerceString
  else if ty = "number" then some coerceNumber
  else if ty = "num" then some coerceNumber
  else if ty = "boolean" then some coerceBoolean
  else if ty = "bool" then some coerceBoolean
  else if ty = "date" then some coerceDate
  else if ty = "auto" then some coerceAuto
  else none

/-- Zero-pad a natural to two digits (`('0' + x).slice(-2)`). -/
def pad2 (n : Int) : String :=
  let s := "0" ++ toString n
  s.drop (s.length - 2)

/-- `_stringify.date`: format epoch milliseconds as
`YYYY/MM/DD hh:mm:ss`.  The source formats in the local time zone;
the model uses UTC (local zones are out of the modelled scope). -/
def jsDateFormat (ms : Int) : String :=
  let secs := ms / 1000
  let days := secs / 86400
  let rem := secs % 86400
  let (y, mo, d) := civilFromDays days
  toString y ++ "/" ++ pad2 mo ++ "/" ++ pad2 d ++ " " ++
    pad2 (rem / 3600) ++ ":" ++ pad2 ((rem % 3600) / 60) ++ ":" ++ pad2 (rem % 60)

/-- `_stringify.date` on a `JVal`. -/
def stringifyDate (d : JVal) : JVal :=
  match jsToNumber d with
  | some ms => .str (jsDateFormat ms)
  | none => .str "NaN/aN/aN aN:aN:aN"

/-- The export registry `_stringify`: every entry except `date` is the
identity. -/
def stringifyRegistry (ty : String) : Option (JVal → JVal) :=
  if ty = "string" then some id
  else if ty = "number" then some id
  else if ty = "num" then some id
  else if ty = "boolean" then some id
  else if ty = "bool" then some id
  else if ty = "date" then some stringifyDate
  else if ty = "auto" then some id
  else none

/-!
## Object / array primitives

Records built by the folder are `JVal.obj` values whose field lists
keep JS property insertion order; assignment replaces an existing
binding in place or appends a new one.
-/

/-- Property read on a field list (first binding wins; `undef` when
absent, matching JS `obj[k]` for missing keys). -/
def objFind (fields : List (String × JVal)) (k : String) : JVal :=
  match fields.find? (fun p => p.1 = k) with
  | some p => p.2
  | none => (.undef)

/-- Property write on a field list: replace the first binding of `k`
in place, or append a new binding (JS insertion-order semantics). -/
def objSetA (fields : List (String × JVal)) (k : String) (v : JVal) : List (String × JVal) :=
  match fields with
  | [] => [(k, v)]
  | (k', v') :: rest =>
      if k' = k then (k', v) :: rest else (k', v') :: objSetA rest k v

/-- Array element read (`undef` beyond the end, i.e. a hole). -/
def arrGet (xs : List JVal) (n : Nat) : JVal := (xs.get? n).getD (.undef)

/-- Array element write; writing past the end pads with holes, as JS
sparse-array assignment does. -/
def arrSet (xs : List JVal) (n : Nat) (v : JVal) : List JVal :=
  if n < xs.length then xs.set n v
  else xs ++ List.replicate (n - xs.length) .undef ++ [v]

/-!
## Attribute parser (§4.1)
-/

/-- JS `\w`: ASCII letters, digits and underscore. -/
def isWordChar (c : Char) : Bool :=
  ('a' ≤ c ∧ c ≤ 'z') ∨ ('A' ≤ c ∧ c ≤ 'Z') ∨ ('0' ≤ c ∧ c ≤ '9') ∨ c = '_'

/-- Split a string at its last `':'`, when one exists. -/
def lastColonSplit (s : String) : Option (String × String) :=
  let rev := s.toList.reverse
  let after := rev.takeWhile (· ≠ ':')
  if after.length = rev.length then none
  else some (String.mk ((rev.drop (after.length + 1)).reverse), String.mk after.reverse)

/-- The `/:(\w+)$/` match: the suffix after the last `':'` when it is
a non-empty word-character run (an earlier `':'` can never match since
`\w` excludes `':'`). -/
def attrTypeSuffix (s : String) : Option String :=
  match lastColonSplit s with
  | some (_, suf) => if suf ≠ "" ∧ suf.toList.all isWordChar then some suf else none
  | none => none

/-- `s.replace(/:\w+$/, '')`. -/
def stripTypeSuffix (s : String) : String :=
  match lastColonSplit s with
  | some (pre, suf) => if suf ≠ "" ∧ suf.toList.all isWordChar then pre else s
  | none => s

/-- A parsed attribute descriptor (one entry of `opts.format`). -/
structure FmtDesc where
  type : String
  key : String
  keys : List String
deriving Repr, DecidableEq

/-- Parse one attribute-header cell value into a descriptor
(`opts.format[cell.column] = {type, key, keys}` in `_format`). -/
def parseAttr (value : String) : FmtDesc :=
  let key := stripTypeSuffix value
  { type := ((attrTypeSuffix value).map asciiLower).getD ""
    key := key
    keys := splitChar '.' key }

/-!
## Sheet options and the option cell
-/

/-- The per-instance configuration (`this.opts` fields read by the
core; transport/auth fields are out of scope). -/
structure InstOpts where
  option_cell : String
  attr_line : Int
  desc_line : Int
  data_line : Int
  ref_keys : List String
deriving Repr, DecidableEq

/-- The library defaults. -/
def defaultInstOpts : InstOpts :=
  { option_cell := "A1", attr_line := 2, desc_line := 3, data_line := 4, ref_keys := ["_id"] }

/-- Per-sheet options accumulated by `_format` (`Opts` in the source).
`type`, `name` and `key` are absent unless the option cell sets them. -/
structure FOpts where
  attr_line : Int
  data_line : Int
  ref_keys : List String
  format : List (String × FmtDesc)
  key : Option String
  type : Option String
  name : Option String
deriving Repr, DecidableEq

/-- Truthiness of an optional JS string field (`""` is falsy). -/
def optTruthy (o : Option String) : Bool :=
  match o with
  | some s => s ≠ ""
  | none => false

/-- The fields an option cell's JSON literal may set.  Other keys in
the JSON object are outside the modelled scope (the engine reads none
of them). -/
structure OptsPatch where
  attr_line : Option Int := none
  data_line : Option Int := none
  ref_keys : Option (List String) := none
  ref_key : Option String := none
  name : Option String := none
  type : Option String := none
  key : Option String := none
deriving Repr, DecidableEq

/-- One parsed JSON value inside the option cell. -/
inductive PatchVal where
  | vstr (s : String)
  | vint (n : Int)
  | vlist (l : List String)
deriving Repr, DecidableEq

/-- JSON string body parser (after the opening quote); the modelled
escapes are `\"`, `\\` and `\/`. -/
def parseJsonStringAux : List Char → List Char → Option (String × List Char)
  | _, [] => none
  | acc, '"' :: rest => some (String.mk acc.reverse, rest)
  | acc, '\\' :: c :: rest =>
      if c = '"' ∨ c = '\\' ∨ c = '/' then parseJsonStringAux (c :: acc) rest else none
  | acc, c :: rest => parseJsonStringAux (c :: acc) rest

/-- Skip JSON whitespace. -/
def skipWs (cs : List Char) : List Char :=
  cs.dropWhile (fun c => c = ' ' ∨ c = '\t' ∨ c = '\n' ∨ c = '\r')

/-- Signed-integer JSON number parser. -/
def parseJsonInt (cs : List Char) : Option (Int × List Char) :=
  let (neg, cs) := match cs with
    | '-' :: rest => (true, rest)
    | _ => (false, cs)
  let ds := cs.takeWhile isDigitChar
  if ds = [] then none
  else
    let n : Int := digitsToNat ds
    some (if neg then -n else n, cs.drop ds.length)

/-- Comma-separated JSON string list after `[`. -/
def parseJsonStrList (fuel : Nat) (acc : List String) (cs : List Char) :
    Option (List String × List Char) :=
  match fuel with
  | 0 => none
  | fuel + 1 =>
    match skipWs cs with
    | ']' :: rest => some (acc.reverse, rest)
    | '"' :: rest =>
      match parseJsonStringAux [] rest with
      | some (s, rest) =>
        match skipWs rest with
        | ',' :: rest => parseJsonStrList fuel (s :: acc) rest
        | ']' :: rest => some ((s :: acc).reverse, rest)
        | _ => none
      | none => none
    | _ => none

/-- One JSON value of the modelled fragment: string, integer, or array
of strings. -/
def parseJsonVal (cs : List Char) : Option (PatchVal × List Char) :=
  match skipWs cs with
  | '"' :: rest => (parseJsonStringAux [] rest).map fun (s, r) => (.vstr s, r)
  | '[' :: rest => (parseJsonStrList rest.length [] rest).map fun (l, r) => (.vlist l, r)
  | cs => (parseJsonInt cs).map fun (n, r) => (.vint n, r)

/-- Record one parsed key/value pair in the patch.  Keys the engine
never reads are ignored. -/
def patchApplyEntry (p : OptsPatch) (k : String) (v : PatchVal) : OptsPatch :=
  match k, v with
  | "attr_line", .vint n => { p with attr_line := some n }
  | "data_line", .vint n => { p with data_line := some n }
  | "ref_keys", .vlist l => { p with ref_keys := some l }
  | "ref_key", .vstr s => { p with ref_key := some s }
  | "name", .vstr s => { p with name := some s }
  | "type", .vstr s => { p with type := some s }
  | "key", .vstr s => { p with key := some s }
  | _, _ => p

/-- Entries of a JSON object after `{`. -/
def parseJsonEntries (fuel : Nat) (p : OptsPatch) (cs : List Char) :
    Option (OptsPatch × List Char) :=
  match fuel with
  | 0 => none
  | fuel + 1 =>
    match skipWs cs with
    | '}' :: rest => some (p, rest)
    | '"' :: rest =>
      match parseJsonStringAux [] rest with
      | some (k, rest) =>
        match skipWs rest with
        | ':' :: rest =>
          match parseJsonVal rest with
          | some (v, rest) =>
            match skipWs rest with
            | ',' :: rest => parseJsonEntries fuel (patchApplyEntry p k v) rest
            | '}' :: rest => some (patchApplyEntry p k v, rest)
            | _ => none
          | none => none
        | _ => none
      | none => none
    | _ => none

/-- Model of `JSON.parse` on the option cell, restricted to flat
object literals with string / integer / string-array values — the
fragment the sheet options use.  Anything else is a parse failure. -/
def parseOptsJson (s : String) : Option OptsPatch :=
  match skipWs s.toList with
  | '{' :: rest =>
    match parseJsonEntries rest.length {} rest with
    | some (p, rest) => if skipWs rest = [] then some p else none
    | none => none
  | _ => none

/-- Merge a parsed option-cell patch into the sheet options:
the legacy `ref_key` is normalised into `ref_keys` first, then the
present fields override (`_.assign`). -/
def applyPatch (o : FOpts) (p : OptsPatch) : FOpts :=
  let p := match p.ref_key with
    | some rk => if rk ≠ "" ∧ p.ref_keys = none then { p with ref_keys := some [rk] } else p
    | none => p
  { o with
    attr_line := p.attr_line.getD o.attr_line
    data_line := p.data_line.getD o.data_line
    ref_keys := p.ref_keys.getD o.ref_keys
    name := p.name <|> o.name
    type := p.type <|> o.type
    key := p.key <|> o.key }

/-!
## Grid folder (`_format`, §4.3)
-/

/-- One raw sheet cell as supplied by the transport layer. -/
structure FCell where
  cell : String
  column : String
  row : Nat
  value : String
deriving Repr, DecidableEq

/-- One entry of the mutable per-fold counter map `idx`. -/
structure IdxEntry where
  type : String
  value : Option Int   -- `none` models `NaN`
deriving Repr, DecidableEq

/-- Counter-map read. -/
def idxFind (idx : List (String × IdxEntry)) (k : String) : Option IdxEntry :=
  (idx.find? (fun p => p.1 = k)).map (·.2)

/-- Counter-map write (insertion-order object semantics). -/
def idxSet (idx : List (String × IdxEntry)) (k : String) (e : IdxEntry) :
    List (String × IdxEntry) :=
  match idx with
  | [] => [(k, e)]
  | (k', e') :: rest => if k' = k then (k', e) :: rest else (k', e') :: idxSet rest k e

/-- Format-map write (`opts.format[cell.column] = ...`). -/
def objSetFmt (m : List (String × FmtDesc)) (k : String) (v : FmtDesc) :
    List (String × FmtDesc) :=
  match m with
  | [] => [(k, v)]
  | (k', v') :: rest => if k' = k then (k', v) :: rest else (k', v') :: objSetFmt rest k v

/-- `parseInt(s, 10)`: optional sign then leading decimal digits, after
trimming; `none` models `NaN`. -/
def jsParseInt (s : String) : Option Int :=
  let cs := trimChars s
  let (neg, cs) := match cs with
    | '-' :: rest => (true, rest)
    | '+' :: rest => (false, rest)
    | _ => (false, cs)
  let ds := cs.takeWhile isDigitChar
  if ds = [] then none
  else some (if neg then -(digitsToNat ds : Int) else (digitsToNat ds : Int))

/-- The `new RegExp('^' + key + '.+$').test(k)` check used when an
index column resets nested counters: `k` must extend the pattern by at
least one character, `'.'` in the pattern matching any character.
Other regex metacharacters inside index keys are out of the modelled
scope. -/
def regexKeyPlusTest (pat k : String) : Bool :=
  k.length > pat.length ∧
    ((pat.toList.zip k.toList).all fun p => p.1 = '.' ∨ p.1 = p.2)

/-- `NaN`-aware strict equality of two counter values
(`NaN !== NaN`). -/
def idxValEq (a b : Option Int) : Bool :=
  match a, b with
  | some x, some y => x = y
  | _, _ => false

/-- The `format.type === 'index'` branch: pin the named counter and
zero every counter whose key strictly extends it. -/
def indexColUpdate (idx : List (String × IdxEntry)) (key : String) (value : String) :
    List (String × IdxEntry) :=
  let parsed := jsParseInt value
  match idxFind idx key with
  | some e =>
    if idxValEq e.value parsed then idx
    else
      let idx := idxSet idx key { type := "format", value := parsed }
      idx.map fun p => if regexKeyPlusTest key p.1 then (p.1, { p.2 with value := some 0 }) else p
  | none =>
      let idx := idxSet idx key { type := "format", value := parsed }
      idx.map fun p => if regexKeyPlusTest key p.1 then (p.1, { p.2 with value := some 0 }) else p

/-- `data[_key].length ? data[_key].length - 1 : 0` — the default for
a fresh array counter. -/
def arrDefaultIdx (v : JVal) : Int :=
  let len : Nat := match v with
    | .arr xs => xs.length
    | .str s => s.length
    | _ => 0
  if len ≠ 0 then (len : Int) - 1 else 0

/-- Find the counter for `joined`, creating `{type:'normal', value:d}`
when absent; returns the updated map and the counter's value. -/
def idxEnsure (idx : List (String × IdxEntry)) (joined : String) (d : Int) :
    (List (String × IdxEntry)) × Option Int :=
  match idxFind idx joined with
  | some e => (idx, e.value)
  | none => (idxSet idx joined { type := "normal", value := some d }, some d)

/-- The value stored by the final key segment: the selected coercion
(element-wise over a comma split for `$` columns), or the raw string
when the type is not in the registry. -/
def leafValue (ty : String) (isSplitArray : Bool) (value : String) : JVal :=
  match coerceRegistry ty with
  | some f =>
      if isSplitArray then .arr ((splitChar ',' value).map fun p => f (.str p))
      else f (.str value)
  | none =>
      if isSplitArray then .arr ((splitChar ',' value).map .str)
      else .str value

/-- The keyPath walk of `_format` (the `_.forEach(format.keys, ...)`
loop): writes one cell's value into the record `data`, threading the
counter map.  `done` is the list of already-processed original
segments (used for the `slice(0, i+1).join('.')` counter keys).
Errors model the `TypeError`s strict-mode JS raises when the walk
tries to write through a primitive; descending into containers that
are neither objects nor (for `#` segments) arrays is outside the
exercised scope and also errors. -/
def foldKeys (ty value : String) :
    List (String × IdxEntry) → JVal → List String → List String →
    Except String (List (String × IdxEntry) × JVal)
  | idx, data, _, [] => .ok (idx, data)
  | idx, data, done, k :: ks =>
    let isArray := headIs k '#'
    let isSplitArray := headIs k '$'
    let name := if isArray ∨ isSplitArray then k.drop 1 else k
    let done' := done ++ [k]
    match data with
    | .obj fields0 =>
      -- `if (isArray) { data[_key] = data[_key] || [] }`
      let fields := if isArray ∧ ¬ jsTruthy (objFind fields0 name)
                    then objSetA fields0 name (.arr []) else fields0
      if ks ≠ [] then
        if isArray then
          let joined := String.intercalate "." done'
          let (idx, iv) := idxEnsure idx joined (arrDefaultIdx (objFind fields name))
          match iv with
          | some iv =>
            if 0 ≤ iv then
              match objFind fields name with
              | .arr xs =>
                let n := iv.toNat
                let elem := arrGet xs n
                let elem := if jsTruthy elem then elem else .obj []
                match foldKeys ty value idx elem done' ks with
                | .ok (idx', elem') =>
                    .ok (idx', .obj (objSetA fields name (.arr (arrSet xs n elem'))))
                | .error e => .error e
              | _ => .error "modelled: array segment over a non-array container"
            else .error "modelled: negative array index"
          | none => .error "modelled: NaN array index"
        else
          let child := objFind fields name
          let child := if jsTruthy child then child else .obj []
          match foldKeys ty value idx child done' ks with
          | .ok (idx', child') => .ok (idx', .obj (objSetA fields name child'))
          | .error e => .error e
      else
        if isArray then
          let joined := String.intercalate "." done'
          let (idx, iv) := idxEnsure idx joined (arrDefaultIdx (objFind fields name))
          match iv with
          | some iv =>
            if 0 ≤ iv then
              match objFind fields name with
              | .arr xs =>
                let n := iv.toNat
                -- `if (data[_key]) return;  data[_key] = <leaf>`
                if jsTruthy (arrGet xs n) then .ok (idx, .obj fields)
                else .ok (idx, .obj (objSetA fields name
                       (.arr (arrSet xs n (leafValue ty isSplitArray value)))))
              | _ => .error "modelled: array segment over a non-array container"
            else .error "modelled: negative array index"
          | none => .error "modelled: NaN array index"
        else
          if jsTruthy (objFind fields name) then .ok (idx, .obj fields)
          else .ok (idx, .obj (objSetA fields name (leafValue ty isSplitArray value)))
    | _ => .error "TypeError: cannot create a property on a primitive value"

/-- Folder state: accumulated options, previous row, counter map and
record list. -/
structure FmtState where
  opts : FOpts
  beforeRow : Option Nat
  idx : List (String × IdxEntry)
  list : List JVal
deriving Repr

/-- The record-start test of step 6 (§4.3). -/
def isRecordStart (opts : FOpts) (fmt : FmtDesc) : Bool :=
  ((¬ optTruthy opts.type ∨ opts.type = some "origin") ∧ opts.ref_keys.head? = some fmt.key)
    ∨ fmt.key = "__ref" ∨ fmt.key = "__ref_0"

/-- One iteration of `_format`'s cell loop. -/
def formatStep (io : InstOpts) (st : FmtState) (cell : FCell) : Except String FmtState :=
  -- row-change detection: every non-'format' counter advances
  let st := if st.beforeRow ≠ some cell.row then
      { st with
        idx := st.idx.map fun p =>
          if p.2.type ≠ "format" then (p.1, { p.2 with value := p.2.value.map (· + 1) }) else p
        beforeRow := some cell.row }
    else st
  if cell.cell = io.option_cell then
    match parseOptsJson cell.value with
    | some patch => .ok { st with opts := applyPatch st.opts patch }
    | none => .error "SyntaxError: unexpected token in JSON"
  else if (cell.row : Int) = st.opts.attr_line then
    .ok { st with opts :=
      { st.opts with format := objSetFmt st.opts.format cell.column (parseAttr cell.value) } }
  else
    match (st.opts.format.find? (fun p => p.1 = cell.column)).map (·.2) with
    | none => .ok st
    | some fmt =>
      if (cell.row : Int) < st.opts.data_line then .ok st
      else if fmt.type = "index" then
        .ok { st with idx := indexColUpdate st.idx fmt.key cell.value }
      else
        let st := if isRecordStart st.opts fmt
                  then { st with idx := [], list := st.list ++ [.obj []] }
                  else st
        match st.list.getLast? with
        | none => .error "TypeError: cannot create a property on undefined"
        | some data =>
          match foldKeys fmt.type cell.value st.idx data [] fmt.keys with
          | .ok (idx', data') =>
              .ok { st with idx := idx', list := st.list.dropLast ++ [data'] }
          | .error e => .error e

/-- The initial folder state built from the instance options. -/
def initFmtState (io : InstOpts) : FmtState :=
  { opts := { attr_line := io.attr_line, data_line := io.data_line,
              ref_keys := io.ref_keys, format := [],
              key := none, type := none, name := none }
    beforeRow := none, idx := [], list := [] }

/-- The folder's result (`{opts, list}`). -/
structure FormatResult where
  opts : FOpts
  list : List JVal
deriving Repr

/-- `_format`: fold the cell stream into sheet options and a record
list; a thrown `TypeError`/JSON parse failure aborts the sheet. -/
def spreadFormat (io : InstOpts) (cells : List FCell) : Except String FormatResult :=
  (cells.foldlM (formatStep io) (initFmtState io)).map fun st =>
    { opts := st.opts, list := st.list }

/-!
## Cross-sheet linker (`_findOrigin` / `toJson`, §4.4)

The source mutates the matched origin record in place through an alias
into the collection map.  The embedding makes the aliasing explicit:
the walk threads the (functionally updated) data map together with the
*path* of the current alias inside it, and `_findOrigin` returns the
updated map plus the target's path on success.
-/

/-- A step of an alias path inside a `JVal` tree. -/
inductive PStep where
  | fld (k : String)
  | aidx (n : Nat)
deriving Repr, DecidableEq

/-- Is `s` a canonical array-index string? -/
def digitsOnly (s : String) : Option Nat :=
  let cs := s.toList
  if cs ≠ [] ∧ cs.all isDigitChar ∧ (s = "0" ∨ ¬ headIs s '0') then some (digitsToNat cs)
  else none

/-- General JS property read `v[k]` on the modelled values. -/
def jprop : JVal → String → JVal
  | .obj f, k => objFind f k
  | .arr xs, k =>
      if k = "length" then .num xs.length
      else match digitsOnly k with
           | some n => arrGet xs n
           | none => .undef
  | .str s, k =>
      if k = "length" then .num s.length
      else match digitsOnly k with
           | some n => match s.toList.get? n with
                       | some c => .str (String.mk [c])
                       | none => .undef
           | none => .undef
  | _, _ => (.undef)

/-- Property write on a `JVal` known to be an object (no-op otherwise;
writes through non-objects are out of the exercised scope). -/
def jset (v : JVal) (k : String) (x : JVal) : JVal :=
  match v with
  | .obj f => .obj (objSetA f k x)
  | v => v

/-- Read along an alias path. -/
def getPath : JVal → List PStep → JVal
  | v, [] => v
  | .obj fields, .fld k :: p => getPath (objFind fields k) p
  | .arr xs, .aidx n :: p => getPath (arrGet xs n) p
  | _, _ :: _ => (.undef)

/-- Write along an alias path (a shape mismatch leaves the tree
unchanged; the walk only writes at paths it has just materialised). -/
def setPath : JVal → List PStep → JVal → JVal
  | _, [], v => v
  | .obj fields, .fld k :: p, v => .obj (objSetA fields k (setPath (objFind fields k) p v))
  | .arr xs, .aidx n :: p, v => .arr (arrSet xs n (setPath (arrGet xs n) p v))
  | w, _ :: _, _ => w

/-- `__in[i].replace(/^#.+:(\d+)$/, '$1')`: the digits after the last
`':'` when the segment matches, the segment itself otherwise. -/
def matchInIndex (s : String) : String :=
  if headIs s '#' then
    match lastColonSplit s with
    | some (pre, suf) =>
        if suf ≠ "" ∧ suf.toList.all isDigitChar ∧ pre.length ≥ 2 then suf else s
    | none => s
  else s

/-- Generic association-list read (JS object key order). -/
def assocFind {α : Type} (l : List (String × α)) (k : String) : Option α :=
  (l.find? (fun p => p.1 = k)).map (·.2)

/-- Generic association-list write (replace in place or append). -/
def assocSet {α : Type} (l : List (String × α)) (k : String) (v : α) : List (String × α) :=
  match l with
  | [] => [(k, v)]
  | (k', v') :: rest => if k' = k then (k', v) :: rest else (k', v') :: assocSet rest k v

/-- The walk over `opts.key`'s dotted segments (`for` loop of
`_findOrigin`): threads the updated map and the alias path; `none`
path means a logged linkage failure, with any writes already made by
earlier steps kept (as in the mutating source). -/
def folWalk (ty : Option String) (inTrail : List String) :
    List String → Nat → JVal → List PStep → JVal × Option (List PStep)
  | [], _, m, path => (m, some path)
  | k :: ks, i, m, path =>
    let cur := getPath m path
    if headIs k '#' then
      let key := k.drop 1
      -- `const index = __in[i] && __in[i].replace(/^#.+:(\d+)$/, '$1')`
      let idxStr := match inTrail.get? i with
        | some s => if s ≠ "" then matchInIndex s else ""
        | none => ""
      if idxStr = "" then (m, none)
      else
        match digitsOnly idxStr with
        | some n =>
          let field := match cur with
            | .obj f => objFind f key
            | _ => .undef
          let field := if jsTruthy field then field else .arr []
          let m := setPath m (path ++ [.fld key]) field
          let elem := match field with
            | .arr xs => arrGet xs n
            | _ => .undef
          let elem := if jsTruthy elem then elem else .obj []
          let m := setPath m (path ++ [.fld key, .aidx n]) elem
          folWalk ty inTrail ks (i + 1) m (path ++ [.fld key, .aidx n])
        | none => (m, none)  -- non-index property of an array: out of the exercised scope
    else if k = "$" then
      let key := match inTrail.get? i with
        | some s => s
        | none => "undefined"
      let path := path ++ [.fld key]
      if ¬ jsTruthy (getPath m path) then (m, none)
      else folWalk ty inTrail ks (i + 1) m path
    else
      let field := match cur with
        | .obj f => objFind f k
        | _ => .undef
      let field := if jsTruthy field then field
        else if ks = [] then (if ty = some "array" then .arr [] else .obj [])
        else .obj []
      let m := setPath m (path ++ [.fld k]) field
      folWalk ty inTrail ks (i + 1) m (path ++ [.fld k])

/-- The post-walk block of `_findOrigin`: append a fresh record for
`"array"` sheets, create `target[__key]` for `"map"` sheets, and fail
(logged) for any other type. -/
def findOriginFinish (opts : FOpts) (data : JVal) (m : JVal) (path : List PStep) :
    JVal × Option (List PStep) :=
  if opts.type = some "array" then
    match getPath m path with
    | .arr xs => (setPath m path (.arr (xs ++ [.obj []])), some (path ++ [.aidx xs.length]))
    | _ => (m, none)   -- 'is not Array.'
  else if opts.type = some "map" then
    if ¬ jsTruthy (jprop data "__key") then (m, none)   -- 'not found __key.'
    else
      let k := jsToString (jprop data "__key")
      match getPath m path with
      | .obj f => (setPath m path (.obj (objSetA f k (.obj []))), some (path ++ [.fld k]))
      | _ => (m, none)   -- writing through a non-object: out of the exercised scope
  else (m, none)   -- `logging.logger.error(opts)`: the record fails linkage

/-- The composite reference key `data.__ref_0 '.' data.__ref_1 ...`
(one piece per configured ref key). -/
def compositeRefKey (refKeys : List String) (data : JVal) : String :=
  String.intercalate "."
    ((List.range refKeys.length).map fun i => jsToString (jprop data ("__ref_" ++ toString i)))

/-- The key under which `_findOrigin` looks the origin record up:
`data.__ref` when truthy, the composite `__ref_N` key otherwise. -/
def originLookupKey (opts : FOpts) (data : JVal) : String :=
  if jsTruthy (jprop data "__ref") then jsToString (jprop data "__ref")
  else compositeRefKey opts.ref_keys data

/-- `_findOrigin`: locate (and materialise the path to) the injection
target for one secondary record.  Returns the updated collection data
map for this name plus the target path, or `none` on a logged
failure. -/
def findOrigin (dataMap : JVal) (opts : FOpts) (data : JVal) : JVal × Option (List PStep) :=
  if ¬ jsTruthy (jprop dataMap (originLookupKey opts data)) ∨ ¬ optTruthy opts.key then
    (dataMap, none)   -- 'not found origin.'
  else
    match folWalk opts.type
        (if jsTruthy (jprop data "__in")
         then splitChar '.' (jsToString (jprop data "__in")) else [])
        (splitChar '.' (opts.key.getD "")) 0 dataMap
        [.fld (originLookupKey opts data)] with
    | (m, some path) => findOriginFinish opts data m path
    | (m, none) => (m, none)

/-!
## `toJson` (§4.4 merge loop)
-/

/-- One folded sheet (`{name, opts, list}`). -/
structure SheetData where
  name : String
  opts : FOpts
  list : List JVal
deriving Repr

/-- Prefix test on strings (built on the character lists so concrete
instances evaluate). -/
def strHasPre (pre s : String) : Bool :=
  go pre.toList s.toList
where
  go : List Char → List Char → Bool
    | [], _ => true
    | _ :: _, [] => false
    | p :: ps, c :: cs => p = c ∧ go ps cs

/-- Strip the transient linkage fields (`__ref*`, `__in`, `__key`)
before the merge. -/
def stripLinkFields : JVal → JVal
  | .obj fields =>
      .obj (fields.filter fun p => ¬ strHasPre "__ref" p.1 ∧ p.1 ≠ "__in" ∧ p.1 ≠ "__key")
  | v => v

/-- `_.assign(target, source)` for object sources (non-object sources
copy nothing of consequence in the exercised scope). -/
def objAssign : JVal → JVal → JVal
  | .obj t, .obj s => .obj (s.foldl (fun acc p => objSetA acc p.1 p.2) t)
  | t, _ => t

/-- The composite key an origin record is stored under
(`keys += data[refKey]` joined with `'.'`). -/
def originStoreKey (refKeys : List String) (data : JVal) : String :=
  String.intercalate "." (refKeys.map fun rk => jsToString (jprop data rk))

/-- Process one record of one sheet inside `toJson`: origin records
are stored under their composite key; secondary records are linked via
`_findOrigin`, merged on success (minus linkage fields) and collected
into the per-name error list on failure. -/
def toJsonProcessData (opts : FOpts) (st : JVal × List JVal) (data : JVal) :
    JVal × List JVal :=
  let (dataMap, errs) := st
  if ¬ optTruthy opts.type ∨ opts.type = some "origin" then
    (jset dataMap (originStoreKey opts.ref_keys data) data, errs)
  else
    match findOrigin dataMap opts data with
    | (m, some path) =>
        let cleaned := stripLinkFields data
        (setPath m path (objAssign (getPath m path) cleaned), errs)
    | (m, none) => (m, errs ++ [data])

/-- `_.assign({}, opts, existing)` plus
`_.assign(optionMap[name].format, opts.format)` — the option-map merge
for a name seen before. -/
def mergeOpts (opts existing : FOpts) : FOpts :=
  { attr_line := existing.attr_line
    data_line := existing.data_line
    ref_keys := existing.ref_keys
    format := opts.format.foldl (fun acc p => objSetFmt acc p.1 p.2) existing.format
    key := existing.key <|> opts.key
    type := existing.type <|> opts.type
    name := existing.name <|> opts.name }

/-- `toJson`'s loop state. -/
structure ToJsonState where
  collectionMap : List (String × JVal)
  optionMap : List (String × FOpts)
  errors : List (String × List JVal)
deriving Repr

/-- Process one sheet of `toJson`. -/
def toJsonSheet (st : ToJsonState) (sd : SheetData) : ToJsonState :=
  let opts := sd.opts
  let name := if optTruthy opts.name then opts.name.getD "" else sd.name
  let dm0 := match assocFind st.collectionMap name with
    | some v => v
    | none => .obj []
  let omap := match assocFind st.optionMap name with
    | some existing => assocSet st.optionMap name (mergeOpts opts existing)
    | none => assocSet st.optionMap name opts
  let errs0 := (assocFind st.errors name).getD []
  let (dm1, errs1) := sd.list.foldl (toJsonProcessData opts) (dm0, errs0)
  { collectionMap := assocSet st.collectionMap name dm1
    optionMap := omap
    errors := if errs1.isEmpty then st.errors else assocSet st.errors name errs1 }

/-- `toJson`: merge all sheets into `{collectionMap, optionMap}` plus
the per-name linkage-error map (`none` when no record failed), which
the default callback re-throws. -/
def toJson (sheetDatas : List SheetData) :
    Option (List (String × List JVal)) × List (String × JVal) × List (String × FOpts) :=
  let st := sheetDatas.foldl toJsonSheet ⟨[], [], []⟩
  (if st.errors.isEmpty then none else some st.errors, st.collectionMap, st.optionMap)

/-!
## Record flattener (`toCells`, §4.5)
-/

/-- The column key map `'A','B',...,'ZZZ'` (`COLUMN_KEYMAP`). -/
def lettersAZ : List Char := "ABCDEFGHIJKLMNOPQRSTUVWXYZ".toList

/-- `genValue(digit, value)` of the source: all `digit`-letter
extensions of `value`. -/
def genValue : Nat → String → List String
  | 0, _ => []
  | 1, v => lettersAZ.map fun c => v ++ String.mk [c]
  | d + 2, v => (lettersAZ.map fun c => genValue (d + 1) (v ++ String.mk [c])).flatten

/-- `COLUMN_KEYMAP = A..Z ++ AA..ZZ ++ AAA..ZZZ`. -/
def COLUMN_KEYMAP : List String := genValue 1 "" ++ genValue 2 "" ++ genValue 3 ""

/-- `Array.prototype.indexOf` (`-1` when absent). -/
def jsIndexOfStr (l : List String) (x : String) : Int :=
  go 0 l
where
  go (n : Int) : List String → Int
    | [] => -1
    | y :: ys => if y = x then n else go (n + 1) ys

/-- `columnToNumber`: 1-based position in the key map, `0` when the
column name is unknown. -/
def columnToNumber (column : String) : Int :=
  jsIndexOfStr COLUMN_KEYMAP column + 1

/-- `separateCell('A1') = {cell, column:'A', col:1, row:1}`.  A cell
name not matching `^(\D+)(\d+)$` leaves the regex groups undefined;
that case never occurs for the configured option cell and is modelled
by empty/zero components. -/
structure SepCell where
  cell : String
  column : String
  col : Int
  row : Int
deriving Repr, DecidableEq

/-- `separateCell`. -/
def separateCell (cell : String) : SepCell :=
  let cs := cell.toList
  let pre := cs.takeWhile (fun c => ¬ isDigitChar c)
  let rest := cs.drop pre.length
  if pre ≠ [] ∧ rest ≠ [] ∧ rest.all isDigitChar then
    { cell := cell, column := String.mk pre, col := columnToNumber (String.mk pre)
      row := (digitsToNat rest : Int) }
  else
    { cell := cell, column := "", col := 0, row := 0 }

/-- Hex digit for JSON escapes. -/
def hexDigit (n : Nat) : Char :=
  if n < 10 then Char.ofNat ('0'.toNat + n) else Char.ofNat ('a'.toNat + (n - 10))

/-- JSON string escaping (`JSON.stringify` on strings). -/
def jsonEscape (s : String) : String :=
  String.mk (s.toList.foldr escapeChar [])
where
  escapeChar (c : Char) (acc : List Char) : List Char :=
    if c = '"' then '\\' :: '"' :: acc
    else if c = '\\' then '\\' :: '\\' :: acc
    else if c = '\n' then '\\' :: 'n' :: acc
    else if c = '\t' then '\\' :: 't' :: acc
    else if c = '\r' then '\\' :: 'r' :: acc
    else if c.toNat < 32 then
      '\\' :: 'u' :: '0' :: '0' :: hexDigit (c.toNat / 16) :: hexDigit (c.toNat % 16) :: acc
    else c :: acc

/-- `JSON.stringify`: `none` for `undefined`; object fields with
`undefined` values are omitted, array holes serialise as `null`. -/
def jsonStringify : JVal → Option String
  | .num n => some (toString n)
  | .nan => some "null"
  | .str s => some ("\"" ++ jsonEscape s ++ "\"")
  | .bool b => some (if b then "true" else "false")
  | .null => some "null"
  | .undef => none
  | .arr xs => some ("[" ++ String.intercalate ","
      (xs.attach.map fun x => (jsonStringify x.1).getD "null") ++ "]")
  | .obj fs => some ("\x7b" ++ String.intercalate ","
      (fs.attach.filterMap fun p =>
        (jsonStringify p.1.2).map fun sv => "\"" ++ jsonEscape p.1.1 ++ "\":" ++ sv) ++ "\x7d")
decreasing_by
  · have := List.sizeOf_lt_of_mem x.2
    simp only [JVal.arr.sizeOf_spec]
    omega
  · have h1 := List.sizeOf_lt_of_mem p.2
    have h2 : sizeOf p.1.2 < sizeOf p.1 := by
      obtain ⟨a, b⟩ := p.1
      simp only [Prod.mk.sizeOf_spec]
      omega
    simp only [JVal.obj.sizeOf_spec]
    omega

/-- `lodash` string-to-path on the fragment the flattener produces:
dot-separated names with optional `[digits]` index parts. -/
def parsePath (s : String) : List String :=
  go s.toList.length [] s.toList
where
  go : Nat → List Char → List Char → List String
    | _, acc, [] => if acc = [] then [] else [String.mk acc.reverse]
    | 0, acc, _ => if acc = [] then [] else [String.mk acc.reverse]
    | fuel + 1, acc, '.' :: rest =>
        (if acc = [] then [] else [String.mk acc.reverse]) ++ go fuel [] rest
    | fuel + 1, acc, '[' :: rest =>
        let ds := rest.takeWhile (· ≠ ']')
        let rest' := (rest.drop ds.length).drop 1
        (if acc = [] then [] else [String.mk acc.reverse]) ++
          String.mk ds :: go fuel [] rest'
    | fuel + 1, acc, c :: rest => go fuel (c :: acc) rest

/-- `_.get(data, path)` over a parsed path. -/
def getByPath (v : JVal) : List String → JVal
  | [] => v
  | k :: p => getByPath (jprop v k) p

/-- `attr.replace(/^.+:(.+)$/, '$1')`: everything after the last `':'`
that has at least one character on both sides; the whole string when
there is no such `':'`. -/
def typeAfterLastColon (s : String) : String :=
  let cs := s.toList
  let rev := cs.reverse
  match rev with
  | [] => s
  | _ :: rest =>
    match findColon 0 rest with
    | some j => if j + 3 ≤ cs.length then String.mk ((rev.take (j + 1)).reverse) else s
    | none => s
where
  findColon (j : Nat) : List Char → Option Nat
    | [] => none
    | c :: cs => if c = ':' then some j else findColon (j + 1) cs

/-- `attr.replace(/:.+$/, '')`: drop everything from the first `':'`
followed by at least one character. -/
def stripColonRest (s : String) : String :=
  go [] s.toList
where
  go (acc : List Char) : List Char → String
    | [] => s
    | ':' :: rest => if rest ≠ [] then String.mk acc.reverse else s
    | c :: rest => go (c :: acc) rest

/-- `s.replace('$', '')`: remove the first occurrence of a character. -/
def removeFirstChar (t : Char) (s : String) : String :=
  go [] s.toList
where
  go (acc : List Char) : List Char → String
    | [] => s
    | c :: rest => if c = t then String.mk (acc.reverse ++ rest) else go (c :: acc) rest

/-- `attr.replace(/#(\w+).*$/, '$1')`: up to the first `'#'` followed
by a word run, the run replacing the matched tail. -/
def arrKeysOf (attr : String) : String :=
  go [] attr.toList
where
  go (acc : List Char) : List Char → String
    | [] => attr
    | '#' :: rest =>
        let w := rest.takeWhile isWordChar
        if w ≠ [] then String.mk (acc.reverse ++ w) else go ('#' :: acc) rest
    | c :: rest => go (c :: acc) rest

/-- `searchKey.replace(/#(\w+)/, '$1[j]')`. -/
def injectIdx (s : String) (j : Nat) : String :=
  go [] s.toList
where
  go (acc : List Char) : List Char → String
    | [] => s
    | '#' :: rest =>
        let w := rest.takeWhile isWordChar
        if w ≠ [] then
          String.mk (acc.reverse ++ w) ++ "[" ++ toString j ++ "]" ++
            String.mk (rest.drop w.length)
        else go ('#' :: acc) rest
    | c :: rest => go (c :: acc) rest

/-- Is a value JS `undefined`? -/
def isUndef : JVal → Bool
  | .undef => true
  | _ => false

/-- The element list `_.map` iterates over (arrays, objects and the
array-like strings; other primitives iterate nothing). -/
def lodashCollValues : JVal → List JVal
  | .arr xs => xs
  | .obj fs => fs.map (·.2)
  | .str s => s.toList.map fun c => .str (String.mk [c])
  | _ => []

/-- `Array.prototype.join()` with the default `','` separator
(`null`/`undefined` elements become empty pieces). -/
def joinComma (els : List JVal) : String :=
  String.intercalate "," (els.map fun v =>
    match v with
    | .null => ""
    | .undef => ""
    | x => jsToString x)

/-- One emitted cell (`{col, row, value}`); values keep their JS type
(the identity stringifiers return numbers unchanged). -/
structure OutCell where
  col : Int
  row : Int
  value : JVal
deriving Repr

/-- The per-attribute body of `addCell`: the cells emitted for one
attribute of one record, plus the rows written by a `#` attribute
(which feed the `maxRow` update).  The source wraps this body in a
per-attribute try/catch; every modelled operation is total, so the
catch arm is unreachable in the model. -/
def addCellAttr (data : JVal) (row : Int) (i : Nat) (attr : String) :
    List OutCell × List Int :=
  let lastSeg := ((splitChar '.' attr).getLast?).getD ""
  let hasArray := attr.toList.contains '#'
  let isSplitArray := headIs lastSeg '$'
  let ty := typeAfterLastColon attr
  let strf := (stringifyRegistry ty).getD id
  let searchKey := removeFirstChar '$' (stripColonRest attr)
  if hasArray then
    let keys := arrKeysOf attr
    match getByPath data (parsePath keys) with
    | .arr xs =>
      let emitted := (List.range xs.length).filterMap fun j =>
        let value := getByPath data (parsePath (injectIdx searchKey j))
        if isUndef value then none
        else
          let v := if isSplitArray then .str (joinComma ((lodashCollValues value).map strf))
                   else strf value
          some (OutCell.mk (i + 1) (row + j) v, row + (j : Int))
      (emitted.map (·.1), emitted.map (·.2))
    | _ => ([], [])
  else
    let value := getByPath data (parsePath searchKey)
    if isUndef value then ([], [])
    else
      let v := if isSplitArray then .str (joinComma ((lodashCollValues value).map strf))
               else strf value
      ([OutCell.mk (i + 1) row v], [])

/-- `addCell(data)`: all cells for one record, with the updated
`maxRow`. -/
def addCell (fmt : List String) (data : JVal) (row maxRow : Int) :
    List OutCell × Int :=
  fmt.enum.foldl
    (fun st p =>
      let (cs, rows) := addCellAttr data row p.1 p.2
      (st.1 ++ cs, rows.foldl max st.2))
    ([], maxRow)

/-- Input of `toCells` (`worksheetData`). -/
structure WorksheetData where
  opts : JVal
  format : List String
  description : List String
  datas : List JVal
  name : Option String
deriving Repr

/-- Output of `toCells`. -/
structure CellsResult where
  maxCol : Int
  maxRow : Int
  cells : List OutCell
  name : Option String
  opts : JVal
deriving Repr

/-- Strict-before order on cells by `['row','col']`. -/
def cellLt (a b : OutCell) : Bool :=
  a.row < b.row ∨ (a.row = b.row ∧ a.col < b.col)

/-- Stable insertion: a new element passes every strictly-smaller key
and stops before the first key not smaller than its own, so elements
with equal keys keep their original order. -/
def insertCellS (x : OutCell) : List OutCell → List OutCell
  | [] => [x]
  | y :: ys => if cellLt y x then y :: insertCellS x ys else x :: y :: ys

/-- `_.sortBy(cells, ['row','col'])`: a stable sort by the `(row,col)`
key; insertion sort is stable, and every stable sort by the same keys
produces the same list. -/
def sortCells : List OutCell → List OutCell
  | [] => []
  | x :: xs => insertCellS x (sortCells xs)

/-- `toCells`. -/
def toCells (io : InstOpts) (wd : WorksheetData) : CellsResult :=
  let opts := if jsTruthy wd.opts then wd.opts else .obj []
  let maxCol : Int := wd.format.length
  let cr := separateCell io.option_cell
  let optCell : OutCell := ⟨cr.col, cr.row, .str ((jsonStringify opts).getD "")⟩
  let fmtCells := wd.format.enum.map fun p =>
    OutCell.mk ((p.1 : Int) + 1) io.attr_line (.str p.2)
  let descCells := wd.description.enum.map fun p =>
    OutCell.mk ((p.1 : Int) + 1) io.desc_line (.str p.2)
  let isArrayType := match jprop opts "type" with
    | .str s => s == "array"
    | _ => false
  let st := wd.datas.foldl
    (fun (st : List OutCell × Int × Int) data =>
      let (cells, maxRow, row) := st
      if isArrayType then
        let rkList : List String :=
          if jsTruthy (jprop opts "ref_keys") then
            match jprop opts "ref_keys" with
            | .arr xs => xs.map jsToString
            | _ => []
          else io.ref_keys
        let origin := (rkList.enum).foldl
          (fun acc p => jset acc ("__ref_" ++ toString p.1) (jprop data p.2)) (.obj [])
        let inner := match jprop opts "key" with
          | .str s => getByPath data (parsePath s)
          | _ => .undef
        let elems := match inner with
          | .arr xs => xs
          | _ => []
        elems.foldl
          (fun (st : List OutCell × Int × Int) d =>
            let (cells, maxRow, _row) := st
            let d := objAssign (objAssign (.obj []) origin) d
            let (cs, mr) := addCell wd.format d _row maxRow
            (cells ++ cs, mr + 1, mr + 1))
          (cells, maxRow, row)
      else
        let (cs, mr) := addCell wd.format data row maxRow
        (cells ++ cs, mr + 1, mr + 1))
    (([], io.data_line, io.data_line) : List OutCell × Int × Int)
  { maxCol := maxCol
    maxRow := st.2.1
    cells := sortCells (optCell :: (fmtCells ++ descCells ++ st.1))
    name := wd.name
    opts := opts }

/-!
## Schema-to-format convertor (`convertSchema2Format`, §4.6)
-/

/-- A JSON-Schema-like node (`JsonSchema` in the source). -/
inductive JSchema where
  | mk (type : String) (items : Option JSchema) (properties : List (String × JSchema))
       (allOf : List JSchema) (oneOf : List JSchema) (format : Option String)

/-- The node's `type`. -/
def JSchema.type : JSchema → String
  | .mk t _ _ _ _ _ => t

/-- The node's `items`. -/
def JSchema.items : JSchema → Option JSchema
  | .mk _ i _ _ _ _ => i

/-- `_.uniq` body: keep elements not seen before. -/
def jsUniqAux (seen : List String) : List String → List String
  | [] => []
  | x :: xs => if seen.contains x then jsUniqAux seen xs else x :: jsUniqAux (x :: seen) xs

/-- `_.uniq`: de-duplicate keeping first occurrences. -/
def jsUniq (l : List String) : List String := jsUniqAux [] l

/-- The sort rank of one format string: `indexOf` the stripped key in
the ref keys, `(refKeys.length - i) * -1` when found.  `lodash`'s
`sortBy` invokes its iteratee with the value only, so the source's
`index` parameter is `undefined` and entries outside `refKeys` rank as
`undefined` (`none` here), which the comparator orders after every
number. -/
def fmtRank (refKeys : List String) (n : String) : Option Int :=
  let i := jsIndexOfStr refKeys (stripTypeSuffix n)
  if i = -1 then none else some ((refKeys.length - i) * (-1))

/-- Strict comparator on ranks (`undefined` sorts last). -/
def rankLt : Option Int → Option Int → Bool
  | some x, some y => x < y
  | some _, none => true
  | none, _ => false

/-- Stable insertion by rank: the inserted element passes strictly
smaller ranks and stops before the first rank not smaller than its
own, so equal ranks keep input order. -/
def insertRanked (x : Option Int × String) :
    List (Option Int × String) → List (Option Int × String)
  | [] => [x]
  | y :: ys => if rankLt y.1 x.1 then y :: insertRanked x ys else x :: y :: ys

/-- Stable insertion sort on ranked entries. -/
def sortRanked : List (Option Int × String) → List (Option Int × String)
  | [] => []
  | x :: xs => insertRanked x (sortRanked xs)

/-- `_.sortBy(result, rank)`: `lodash` performs a stable sort by the
rank (tie-breaking equal ranks on the original index), and a stable
sort by a fixed key function is unique, so insertion sort computes the
same list. -/
def sortFormat (refKeys : List String) (l : List String) : List String :=
  (sortRanked (l.map fun n => (fmtRank refKeys n, n))).map (·.2)

mutual

/-- `convertSchema2Format`: walk the schema into attribute strings
(throwing on unsupported nodes); the accumulated list is sorted by
`fmtRank` before returning (`_.sortBy` on the source's last line). -/
def convertSchema2Format (schema : JSchema) (refKeys : List String) (path : String) :
    Except String (List String) :=
  (convertFormatBase schema refKeys path).map (sortFormat refKeys)
termination_by (2 * sizeOf schema + 1, 0).1
decreasing_by
  omega

/-- The body of `convertSchema2Format` before its final sort.  Child
schemas contribute through the full — sorted — convertor, exactly as
the source pushes `this.convertSchema2Format(...)` results. -/
def convertFormatBase (schema : JSchema) (refKeys : List String) (path : String) :
    Except String (List String) :=
  match schema with
  | .mk ty items props aOf oOf fmt =>
    match ty with
    | "string" => pure [path ++ ":" ++ ty]
    | "boolean" => pure [path ++ ":" ++ ty]
    | "number" =>
        pure (if fmt = some "date-time" then [path ++ ":date"] else [path ++ ":number"])
    | "integer" =>
        pure (if fmt = some "date-time" then [path ++ ":date"] else [path ++ ":number"])
    | "object" => do
      let r1 ← props.attach.foldlM
        (fun (acc : List String) pp => do
          let key := pp.1.1
          let sc := pp.1.2
          let nextKey :=
            if sc.type = "array" then
              match sc.items with
              | some it =>
                  if it.type = "object" then "#" ++ key
                  else if it.type ≠ "array" then "$" ++ key
                  else key
              | none => key
            else key
          let nextPath := if path ≠ "" then path ++ "." ++ nextKey else nextKey
          let fmtL ← convertSchema2Format sc refKeys nextPath
          pure (acc ++ fmtL))
        []
      let r2 ← aOf.attach.foldlM
        (fun (acc : List String) sp => do
          let fmtL ← convertSchema2Format sp.1 refKeys path
          pure (jsUniq (acc ++ fmtL)))
        r1
      let r3 ← oOf.attach.foldlM
        (fun (acc : List String) sp => do
          let fmtL ← convertSchema2Format sp.1 refKeys path
          pure (jsUniq (acc ++ fmtL)))
        r2
      pure r3
    | "array" =>
      match items with
      | some it =>
          let arrayMark := if it.type = "object" then "#" else "$"
          convertSchema2Format it refKeys (if path ≠ "" then path else arrayMark)
      | none => .error ("invalid schema type. " ++ ty)
    | _ => .error ("invalid schema type. " ++ ty)
termination_by (2 * sizeOf schema, 0).1
decreasing_by
  · have h1 := List.sizeOf_lt_of_mem pp.2
    have h2 : sizeOf pp.1.2 < sizeOf pp.1 := by
      obtain ⟨a, b⟩ := pp.1
      simp only [Prod.mk.sizeOf_spec]
      omega
    simp only [JSchema.mk.sizeOf_spec]
    omega
  · have h1 := List.sizeOf_lt_of_mem sp.2
    simp only [JSchema.mk.sizeOf_spec]
    omega
  · have h1 := List.sizeOf_lt_of_mem sp.2
    simp only [JSchema.mk.sizeOf_spec]
    omega
  · simp only [JSchema.mk.sizeOf_spec, Option.some.sizeOf_spec]
    omega

end

/-!
## Claims
-/

/-- The §8 scenario grid: header row 2 `["_id", "obj.code",
"obj.value:number"]`, data rows 4–5. -/
def c2Grid : List FCell :=
  [ ⟨"A2", "A", 2, "_id"⟩, ⟨"B2", "B", 2, "obj.code"⟩, ⟨"C2", "C", 2, "obj.value:number"⟩,
    ⟨"A4", "A", 4, "first"⟩, ⟨"B4", "B", 4, "one"⟩, ⟨"C4", "C", 4, "1"⟩,
    ⟨"A5", "A", 5, "second"⟩, ⟨"B5", "B", 5, "two"⟩, ⟨"C5", "C", 5, "2"⟩ ]

/-- C2: folding the grid with header row 2
`["_id", "obj.code", "obj.value:number"]` and data rows 4–5
`[["first","one","1"], ["second","two","2"]]` produces exactly the two
records `{_id:"first", obj:{code:"one", value:1}}` and
`{_id:"second", obj:{code:"two", value:2}}`, the `:number` column
coerced to a numeric leaf. -/
theorem c2_scenario_fold :
    (spreadFormat defaultInstOpts c2Grid).map (·.list) =
      .ok [ .obj [("_id", .str "first"),
                  ("obj", .obj [("code", .str "one"), ("value", .num 1)])],
            .obj [("_id", .str "second"),
                  ("obj", .obj [("code", .str "two"), ("value", .num 2)])] ] := by
  rfl

/-- C4: the coercion registry — booleans pass through (`false` exactly
for `false`), a string ingests to `false` exactly when it lower-cases
to `"false"` or equals `"0"` and to `true` otherwise,
`number("3") = 3`, and `auto` returns the numeric coercion exactly
when the input parses as a number, the original string otherwise
(`auto("3") = 3`, `auto("x") = "x"`, `boolean("FALSE") = false`,
`boolean("0") = false`, `boolean("anything else") = true`). -/
theorem c4_type_coercion :
    (∀ b : Bool, coerceBoolean (.bool b) = .bool b) ∧
    (∀ s : String, coerceBoolean (.str s) = .bool false ↔
        (asciiLower s = "false" ∨ s = "0")) ∧
    (∀ s : String, ¬ (asciiLower s = "false" ∨ s = "0") →
        coerceBoolean (.str s) = .bool true) ∧
    (∀ s : String, coerceAuto (.str s) =
        match jsStringToNumber s with
        | some n => .num n
        | none => .str s) ∧
    coerceBoolean (.str "FALSE") = .bool false ∧
    coerceBoolean (.str "0") = .bool false ∧
    coerceBoolean (.str "anything else") = .bool true ∧
    coerceNumber (.str "3") = .num 3 ∧
    coerceAuto (.str "3") = .num 3 ∧
    coerceAuto (.str "x") = .str "x" := by
  refine ⟨fun b => rfl, fun s => ?_, fun s hs => ?_, fun s => ?_, rfl, rfl, rfl, rfl, rfl, rfl⟩
  · simp only [coerceBoolean, JVal.bool.injEq, decide_eq_false_iff_not, not_and_or,
      not_not, ne_eq]
    try tauto
  · simp only [coerceBoolean, JVal.bool.injEq, decide_eq_true_eq, ne_eq]
    try tauto
    try exact ⟨fun h => hs (Or.inl h), fun h => hs (Or.inr h)⟩
  · simp only [coerceAuto, coerceNumber, jsToNumber]
    cases jsStringToNumber s <;> rfl

/-- C4 witness: the truthy clause applied at `"anything else"`. -/
theorem c4_type_coercion_witness :
    coerceBoolean (.str "anything else") = .bool true :=
  c4_type_coercion.2.2.1 "anything else" (by decide)

/-- C8: if the first data-line cell whose column has a descriptor is
neither an `index` column nor a record-start cell, the record list is
still empty when the keyPath write begins, its target is undefined,
and `_format` throws — folding fails on an input with no option cell
at all. -/
theorem c8_format_throws (a d : FCell)
    (ha1 : a.cell ≠ "A1") (ha2 : a.row = 2)
    (hd1 : d.cell ≠ "A1") (hd2 : d.row = 4) (hd3 : d.column = a.column)
    (ht : (parseAttr a.value).type ≠ "index")
    (hk1 : (parseAttr a.value).key ≠ "_id")
    (hk2 : (parseAttr a.value).key ≠ "__ref")
    (hk3 : (parseAttr a.value).key ≠ "__ref_0") :
    spreadFormat defaultInstOpts [a, d] =
      .error "TypeError: cannot create a property on undefined" := by
  have h1 : formatStep defaultInstOpts (initFmtState defaultInstOpts) a =
      .ok { opts := { attr_line := 2, data_line := 4, ref_keys := ["_id"],
                      format := [(a.column, parseAttr a.value)],
                      key := none, type := none, name := none },
            beforeRow := some a.row, idx := [], list := [] } := by
    simp [formatStep, initFmtState, defaultInstOpts, ha1, ha2, objSetFmt]
  have h2 : formatStep defaultInstOpts
      { opts := { attr_line := 2, data_line := 4, ref_keys := ["_id"],
                  format := [(a.column, parseAttr a.value)],
                  key := none, type := none, name := none },
        beforeRow := some a.row, idx := [], list := [] } d =
      .error "TypeError: cannot create a property on undefined" := by
    simp [formatStep, defaultInstOpts, hd1, hd2, hd3, ha2, isRecordStart, optTruthy, ht,
      Ne.symm hk1, hk2, hk3]
  have hbind : ∀ st : FmtState,
      (do let s' ← Except.ok st; formatStep defaultInstOpts s' d) =
        formatStep defaultInstOpts st d := fun _ => rfl
  simp [spreadFormat, List.foldlM, h1, hbind, h2, Except.map]

/-- C8 witness: a concrete two-cell sheet (attribute `foo` in column
`A`, data value in row 4) on which folding throws. -/
theorem c8_format_throws_witness :
    spreadFormat defaultInstOpts [⟨"A2", "A", 2, "foo"⟩, ⟨"A4", "A", 4, "bar"⟩] =
      .error "TypeError: cannot create a property on undefined" :=
  c8_format_throws ⟨"A2", "A", 2, "foo"⟩ ⟨"A4", "A", 4, "bar"⟩
    (by decide) rfl (by decide) rfl rfl
    (by decide) (by decide) (by decide) (by decide)

/-- C5: a data-line cell whose column has a non-`index` descriptor
satisfying the record-start test — raw key equal to the first
configured ref key while the sheet type is absent/`"origin"`, or equal
to `"__ref"`/`"__ref_0"` — wipes the whole counter map (so in
particular every non-`format` counter) and appends a fresh empty
record, into which that cell's own keyPath write goes: subsequent
cells write into the new last record. -/
theorem c5_record_start (io : InstOpts) (st : FmtState) (cell : FCell) (fmt : FmtDesc)
    (h1 : cell.cell ≠ io.option_cell)
    (h2 : (cell.row : Int) ≠ st.opts.attr_line)
    (h3 : ¬ ((cell.row : Int) < st.opts.data_line))
    (h4 : (st.opts.format.find? (fun p => p.1 = cell.column)).map (·.2) = some fmt)
    (h5 : fmt.type ≠ "index")
    (h6 : isRecordStart st.opts fmt = true) :
    formatStep io st cell =
      (foldKeys fmt.type cell.value [] (.obj []) [] fmt.keys).map fun p =>
        { opts := st.opts, beforeRow := some cell.row, idx := p.1
          list := st.list ++ [p.2] } := by
  by_cases hbr : st.beforeRow = some cell.row <;>
  · simp only [formatStep, hbr, h1, h2, h3, h4, h5, h6, if_true, if_false, ite_not,
      reduceIte, ne_eq, not_false_eq_true, not_true_eq_false]
    cases hfk : foldKeys fmt.type cell.value [] (.obj []) [] fmt.keys with
    | ok p =>
      simp [hfk, List.getLast?_concat, List.dropLast_concat, Except.map]
    | error e =>
      simp [hfk, List.getLast?_concat, Except.map]

/-- C5 witness: a concrete `_id` cell at row 4 starting a new record. -/
theorem c5_record_start_witness :
    formatStep defaultInstOpts
      { opts := { attr_line := 2, data_line := 4, ref_keys := ["_id"],
                  format := [("A", ⟨"", "_id", ["_id"]⟩)],
                  key := none, type := none, name := none },
        beforeRow := none, idx := [], list := [] }
      ⟨"A4", "A", 4, "x"⟩ =
      (foldKeys "" "x" [] (.obj []) [] ["_id"]).map fun p =>
        { opts := { attr_line := 2, data_line := 4, ref_keys := ["_id"],
                    format := [("A", ⟨"", "_id", ["_id"]⟩)],
                    key := none, type := none, name := none },
          beforeRow := some 4, idx := p.1, list := [] ++ [p.2] } :=
  c5_record_start defaultInstOpts _ ⟨"A4", "A", 4, "x"⟩ ⟨"", "_id", ["_id"]⟩
    (by decide) (by decide) (by decide) rfl (by decide) (by decide)

/-- `objFind` steps through a cons. -/
theorem objFind_cons (p : String × JVal) (rest : List (String × JVal)) (k : String) :
    objFind (p :: rest) k = if p.1 = k then p.2 else objFind rest k := by
  by_cases h : p.1 = k <;> simp [objFind, List.find?, h]

/-- Re-assigning the value a key already holds leaves the field list
unchanged (provided the key is really bound, which truthiness
implies). -/
theorem objSetA_find_self (fields : List (String × JVal)) (k : String)
    (h : jsTruthy (objFind fields k) = true) :
    objSetA fields k (objFind fields k) = fields := by
  induction fields with
  | nil => simp [objFind, List.find?, jsTruthy] at h
  | cons p rest ih =>
    obtain ⟨k1, v1⟩ := p
    by_cases hk : k1 = k
    · simp_all [objSetA, objFind_cons]
    · rw [objFind_cons] at h ⊢
      simp only [hk, if_false, ite_false] at h ⊢
      simp [objSetA, hk, ih h]

/-- The folder's read-only view of a plain dotted path: descend
through object fields only. -/
def objPathFind : JVal → List String → JVal
  | v, [] => v
  | .obj fields, k :: p => objPathFind (objFind fields k) p
  | _, _ :: _ => (.undef)

/-- A truthy walk through a non-empty path forces an object at its
head. -/
theorem jsTruthy_of_objPathFind_cons (v : JVal) (k : String) (p : List String)
    (h : jsTruthy (objPathFind v (k :: p)) = true) : jsTruthy v = true := by
  cases v <;> simp_all [objPathFind, jsTruthy]

/-- Single unfold of `foldKeys` at a plain non-final segment. -/
theorem foldKeys_cons_plain (ty value : String) (idx : List (String × IdxEntry))
    (fields : List (String × JVal)) (done : List String) (k : String) (ks : List String)
    (h1 : headIs k '#' = false) (h2 : headIs k '$' = false) (hne : ks ≠ []) :
    foldKeys ty value idx (.obj fields) done (k :: ks) =
      (match foldKeys ty value idx
          (if jsTruthy (objFind fields k) = true then objFind fields k else .obj [])
          (done ++ [k]) ks with
       | .ok (idx', child') => .ok (idx', .obj (objSetA fields k child'))
       | .error e => .error e) := by
  conv_lhs => rw [foldKeys]
  simp [h1, h2, hne]

/-- Single unfold of `foldKeys` at a plain final segment. -/
theorem foldKeys_single_plain (ty value : String) (idx : List (String × IdxEntry))
    (fields : List (String × JVal)) (done : List String) (k : String)
    (h1 : headIs k '#' = false) (h2 : headIs k '$' = false) :
    foldKeys ty value idx (.obj fields) done [k] =
      (if jsTruthy (objFind fields k) = true then .ok (idx, .obj fields)
       else .ok (idx, .obj (objSetA fields k (leafValue ty false value)))) := by
  conv_lhs => rw [foldKeys]
  simp [h1, h2]

/-- Walking a plain (marker-free) keyPath whose leaf already holds a
truthy value leaves record and counters unchanged. -/
theorem foldKeys_truthy_nop (ty value : String) :
    ∀ (ks : List String) (idx : List (String × IdxEntry)) (data : JVal) (done : List String),
      (∀ k ∈ ks, headIs k '#' = false ∧ headIs k '$' = false) →
      jsTruthy (objPathFind data ks) = true →
      foldKeys ty value idx data done ks = .ok (idx, data)
  | [], idx, data, done, _, _ => rfl
  | k :: ks, idx, data, done, hplain, hleaf => by
    obtain ⟨hk1, hk2⟩ := hplain k (List.mem_cons_self k ks)
    have hobj : jsTruthy data = true := jsTruthy_of_objPathFind_cons data k ks hleaf
    match data with
    | .num _ | .nan | .str _ | .bool _ | .null | .undef | .arr _ =>
      simp [objPathFind, jsTruthy] at hleaf
    | .obj fields =>
      rw [objPathFind] at hleaf
      match ks, hleaf with
      | [], hleaf =>
        rw [objPathFind] at hleaf
        rw [foldKeys_single_plain ty value idx fields done k hk1 hk2]
        simp [hleaf]
      | k' :: ks', hleaf =>
        have hchild : jsTruthy (objFind fields k) = true :=
          jsTruthy_of_objPathFind_cons (objFind fields k) k' ks' hleaf
        have hrec := foldKeys_truthy_nop ty value (k' :: ks') idx (objFind fields k)
          (done ++ [k]) (fun x hx => hplain x (List.mem_cons_of_mem k hx)) hleaf
        rw [foldKeys_cons_plain ty value idx fields done k (k' :: ks') hk1 hk2
          (by simp)]
        simp [hchild, hrec, objSetA_find_self fields k hchild]

/-- A plain final segment whose slot holds a falsy value is
overwritten with the freshly coerced leaf. -/
theorem foldKeys_falsy_leaf (ty value : String) (idx : List (String × IdxEntry))
    (fields : List (String × JVal)) (done : List String) (k : String)
    (h1 : headIs k '#' = false) (h2 : headIs k '$' = false)
    (h3 : jsTruthy (objFind fields k) = false) :
    foldKeys ty value idx (.obj fields) done [k] =
      .ok (idx, .obj (objSetA fields k (leafValue ty false value))) := by
  simp [foldKeys, h1, h2, h3]

/-- C3 (amended): during the keyPath walk the final segment's write is
guarded by JS truthiness, not by presence — along a marker-free path,
a truthy stored leaf makes the whole walk a no-op (the first written
value is kept and the later contribution ignored), while a falsy
stored leaf (such as the number `0`, `NaN`, `""` or `false`) is
overwritten by the later contribution. -/
theorem c3_first_write_wins_amended :
    (∀ (ty value : String) (ks : List String) (idx : List (String × IdxEntry))
        (data : JVal) (done : List String),
      (∀ k ∈ ks, headIs k '#' = false ∧ headIs k '$' = false) →
      jsTruthy (objPathFind data ks) = true →
      foldKeys ty value idx data done ks = .ok (idx, data)) ∧
    (∀ (ty value : String) (idx : List (String × IdxEntry))
        (fields : List (String × JVal)) (done : List String) (k : String),
      headIs k '#' = false → headIs k '$' = false →
      jsTruthy (objFind fields k) = false →
      foldKeys ty value idx (.obj fields) done [k] =
        .ok (idx, .obj (objSetA fields k (leafValue ty false value)))) :=
  ⟨fun ty value ks idx data done h1 h2 => foldKeys_truthy_nop ty value ks idx data done h1 h2,
   fun ty value idx fields done k h1 h2 h3 => foldKeys_falsy_leaf ty value idx fields done k h1 h2 h3⟩

/-- C3 witness: a truthy stored leaf survives, a falsy one is
replaced. -/
theorem c3_first_write_wins_amended_witness :
    foldKeys "" "v" [] (.obj [("a", .str "w")]) [] ["a"] =
        .ok ([], .obj [("a", .str "w")]) ∧
    foldKeys "" "v" [] (.obj [("a", .num 0)]) [] ["a"] =
        .ok ([], .obj (objSetA [("a", .num 0)] "a" (leafValue "" false "v"))) :=
  ⟨c3_first_write_wins_amended.1 "" "v" ["a"] [] (.obj [("a", .str "w")]) []
      (by decide) (by decide),
   c3_first_write_wins_amended.2 "" "v" [] [("a", .num 0)] [] "a"
      (by decide) (by decide) (by decide)⟩

/-- The C3 counterexample grid: two `a:number` columns contribute to
the same key; the first contribution is the falsy number `0`. -/
def c3Grid : List FCell :=
  [ ⟨"A2", "A", 2, "_id"⟩, ⟨"B2", "B", 2, "a:number"⟩, ⟨"C2", "C", 2, "a:number"⟩,
    ⟨"A4", "A", 4, "x"⟩, ⟨"B4", "B", 4, "0"⟩, ⟨"C4", "C", 4, "5"⟩ ]

/-- C3 counterexample: columns `B`/`C` both target key `a`; the first
contribution writes the coerced `0`, yet the fold ends with `a = 5` —
the later duplicate contribution is *not* ignored, contradicting the
claim that the first written value is kept for every duplicate
contribution. -/
theorem c3_counterexample :
    (spreadFormat defaultInstOpts c3Grid).map (·.list) =
        .ok [ .obj [("_id", .str "x"), ("a", .num 5)] ] ∧
    coerceNumber (.str "0") = .num 0 ∧ (JVal.num 5 ≠ JVal.num 0) :=
  ⟨rfl, rfl, by simp⟩

/-- C9: when linkage fails before the walk — no truthy origin under
the lookup key, or a missing/falsy `opts.key` — `_findOrigin` returns
with the collection data map untouched (no origin record modified),
and `toJson`'s per-record step leaves the map unchanged while
appending the failing record exactly once to that name's error list. -/
theorem c9_failed_link_preserves_map (dataMap : JVal) (opts : FOpts) (data : JVal)
    (errs : List JVal)
    (hfail : jsTruthy (jprop dataMap (originLookupKey opts data)) = false ∨
             optTruthy opts.key = false)
    (hsec1 : optTruthy opts.type = true) (hsec2 : opts.type ≠ some "origin") :
    findOrigin dataMap opts data = (dataMap, none) ∧
    toJsonProcessData opts (dataMap, errs) data = (dataMap, errs ++ [data]) := by
  have h1 : findOrigin dataMap opts data = (dataMap, none) := by
    rcases hfail with h | h <;> simp [findOrigin, h]
  refine ⟨h1, ?_⟩
  simp [toJsonProcessData, h1, hsec1, hsec2]

/-- C9 witness: a secondary record whose `__ref_0` matches no origin. -/
theorem c9_failed_link_preserves_map_witness :
    findOrigin (.obj []) 
      { attr_line := 2, data_line := 4, ref_keys := ["_id"], format := [],
        key := some "list", type := some "array", name := none }
      (.obj [("__ref_0", .str "missing")]) = (.obj [], none) ∧
    toJsonProcessData
      { attr_line := 2, data_line := 4, ref_keys := ["_id"], format := [],
        key := some "list", type := some "array", name := none }
      (.obj [], []) (.obj [("__ref_0", .str "missing")]) =
      (.obj [], [] ++ [.obj [("__ref_0", .str "missing")]]) :=
  c9_failed_link_preserves_map (.obj [])
    { attr_line := 2, data_line := 4, ref_keys := ["_id"], format := [],
      key := some "list", type := some "array", name := none }
    (.obj [("__ref_0", .str "missing")]) []
    (Or.inl (by rfl)) (by decide) (by decide)

/-- `_findOrigin` never returns a target when the sheet type is
neither `"array"` nor `"map"`: every path through the walk ends in the
logged-failure arm of the post-walk block. -/
theorem findOrigin_snd_none (dataMap : JVal) (opts : FOpts) (data : JVal)
    (ha : opts.type ≠ some "array") (hm : opts.type ≠ some "map") :
    (findOrigin dataMap opts data).2 = none := by
  rw [findOrigin]
  by_cases h1 : jsTruthy (jprop dataMap (originLookupKey opts data)) = true
  · by_cases h2 : optTruthy opts.key = true
    · rw [if_neg (by simp [h1, h2])]
      cases hw : folWalk opts.type
          (if jsTruthy (jprop data "__in") = true
           then splitChar '.' (jsToString (jprop data "__in")) else [])
          (splitChar '.' (opts.key.getD "")) 0 dataMap
          [.fld (originLookupKey opts data)] with
      | mk m' po =>
        cases po with
        | none => simp
        | some p => simp [findOriginFinish, ha, hm]
    · rw [if_pos (Or.inr h2)]
  · rw [if_pos (Or.inl h1)]

/-- C6 (amended): after the walk, an `"array"` sheet requires an array
target (else the record fails linkage) and then appends and returns a
fresh empty record; a `"map"` sheet requires a truthy `__key` (else
failure) and creates and returns `target[__key] = {}`; any *other*
`opts.type` is handled exactly like a recovered per-record linkage
failure — `_findOrigin` yields no target and `toJson`'s per-record
step appends the record to that name's error list and continues
(the error map reaches the caller only through `toJson`'s final
callback, as for every other linkage failure). -/
theorem c6_linker_finish (opts : FOpts) (data m : JVal) (path : List PStep) :
    (opts.type = some "array" →
      ((∀ xs, getPath m path ≠ .arr xs) →
          findOriginFinish opts data m path = (m, none)) ∧
      (∀ xs, getPath m path = .arr xs →
        findOriginFinish opts data m path =
          (setPath m path (.arr (xs ++ [.obj []])), some (path ++ [.aidx xs.length])))) ∧
    (opts.type = some "map" →
      (jsTruthy (jprop data "__key") = false →
        findOriginFinish opts data m path = (m, none)) ∧
      (∀ f, jsTruthy (jprop data "__key") = true → getPath m path = .obj f →
        findOriginFinish opts data m path =
          (setPath m path (.obj (objSetA f (jsToString (jprop data "__key")) (.obj []))),
           some (path ++ [.fld (jsToString (jprop data "__key"))])))) ∧
    (opts.type ≠ some "array" → opts.type ≠ some "map" →
      findOriginFinish opts data m path = (m, none) ∧
      (∀ (dataMap : JVal) (errs : List JVal),
        optTruthy opts.type = true → opts.type ≠ some "origin" →
        (findOrigin dataMap opts data).2 = none ∧
        toJsonProcessData opts (dataMap, errs) data =
          ((findOrigin dataMap opts data).1, errs ++ [data]))) := by
  refine ⟨fun ha => ⟨fun hne => ?_, fun xs hxs => ?_⟩,
          fun hm => ⟨fun hk => ?_, fun f hk hobj => ?_⟩,
          fun hna hnm => ⟨?_, fun dataMap errs hty hto => ⟨?_, ?_⟩⟩⟩
  · rw [findOriginFinish, if_pos ha]
    cases hg : getPath m path
    case arr xs => exact absurd hg (hne xs)
    all_goals rfl
  · rw [findOriginFinish]
    simp [ha, hxs]
  · have : opts.type ≠ some "array" := by simp [hm]
    rw [findOriginFinish]
    simp [this, hm, hk]
  · have : opts.type ≠ some "array" := by simp [hm]
    rw [findOriginFinish]
    simp [this, hm, hk, hobj]
  · rw [findOriginFinish]
    simp [hna, hnm]
  · exact findOrigin_snd_none dataMap opts data hna hnm
  · have hsn := findOrigin_snd_none dataMap opts data hna hnm
    rw [toJsonProcessData]
    cases hfo : findOrigin dataMap opts data with
    | mk m' po =>
      rw [hfo] at hsn
      simp at hsn
      subst hsn
      simp [hfo, hty, hto]

/-- C6 witness: the characterisation applied with type `"array"` at an
array target. -/
theorem c6_linker_finish_witness :
    findOriginFinish
      { attr_line := 2, data_line := 4, ref_keys := ["_id"], format := [],
        key := some "list", type := some "array", name := none }
      (.obj []) (.obj [("k", .arr [])]) [.fld "k"] =
      (setPath (.obj [("k", .arr [])]) [.fld "k"] (.arr (([] : List JVal) ++ [.obj []])),
       some ([.fld "k"] ++ [.aidx 0])) :=
  ((c6_linker_finish
      { attr_line := 2, data_line := 4, ref_keys := ["_id"], format := [],
        key := some "list", type := some "array", name := none }
      (.obj []) (.obj [("k", .arr [])]) [.fld "k"]).1 rfl).2 [] rfl

/-- The origin/secondary sheets of the C6 counterexample: the middle
sheet carries the unsupported type `"bogus"`. -/
def c6OriginOpts : FOpts :=
  { attr_line := 2, data_line := 4, ref_keys := ["_id"], format := [],
    key := none, type := none, name := some "Test" }

def c6BadOpts : FOpts :=
  { attr_line := 2, data_line := 4, ref_keys := ["_id"], format := [],
    key := some "list", type := some "bogus", name := some "Test" }

def c6Sheets : List SheetData :=
  [ ⟨"Test1", c6OriginOpts, [.obj [("_id", .str "first")]]⟩,
    ⟨"Test1.list", c6BadOpts, [.obj [("__ref_0", .str "first"), ("code", .str "c")]]⟩,
    ⟨"Test2", c6OriginOpts, [.obj [("_id", .str "second")]]⟩ ]

/-- C6 counterexample: a sheet with the unknown type `"bogus"` is not
fatal to `toJson` — the operation completes, the offending record is
collected into the per-name error list exactly like a recovered
linkage failure, and a later origin sheet for the same collection is
still processed (`"second"` appears in the collection map).  This
contradicts the claim that an unknown `opts.type` is surfaced as a
thrown/returned error rather than handled as a recovered per-record
linkage failure. -/
theorem c6_counterexample :
    toJson c6Sheets =
      (some [("Test", [.obj [("__ref_0", .str "first"), ("code", .str "c")]])],
       [("Test", .obj
           [("first", .obj [("_id", .str "first"), ("list", .obj [])]),
            ("second", .obj [("_id", .str "second")])])],
       [("Test",
         { attr_line := 2, data_line := 4, ref_keys := ["_id"], format := [],
           key := some "list", type := some "bogus", name := some "Test" })]) := by
  rfl

/-- Membership is preserved by stable insertion. -/
theorem mem_insertCellS (x y : OutCell) (l : List OutCell) :
    x ∈ insertCellS y l ↔ x = y ∨ x ∈ l := by
  induction l with
  | nil => simp [insertCellS]
  | cons z zs ih =>
    rw [insertCellS]
    by_cases h : cellLt z y = true
    · simp [h, ih]
      try tauto
    · simp [h, ih]
      try tauto

/-- `_.sortBy` only permutes the cell list: membership is unchanged. -/
theorem mem_sortCells (x : OutCell) (l : List OutCell) :
    x ∈ sortCells l ↔ x ∈ l := by
  induction l with
  | nil => simp [sortCells]
  | cons z zs ih =>
    rw [sortCells, mem_insertCellS]
    simp [ih]

/-- C10: for every input — the empty record list included — `toCells`
emits the option cell at the configured option-cell address carrying
the JSON serialisation of the sheet opts, one cell per format string
at `attr_line` in column order from column 1, and one cell per
description string at `desc_line`, besides any data cells; `maxCol`
always equals the number of format strings. -/
theorem c10_toCells_layout (io : InstOpts) (wd : WorksheetData) :
    (toCells io wd).maxCol = wd.format.length ∧
    (OutCell.mk (separateCell io.option_cell).col (separateCell io.option_cell).row
        (.str ((jsonStringify (if jsTruthy wd.opts = true then wd.opts else .obj [])).getD ""))
      ∈ (toCells io wd).cells) ∧
    (∀ i, (h : i < wd.format.length) →
      OutCell.mk ((i : Int) + 1) io.attr_line (.str wd.format[i]) ∈ (toCells io wd).cells) ∧
    (∀ i, (h : i < wd.description.length) →
      OutCell.mk ((i : Int) + 1) io.desc_line (.str wd.description[i]) ∈ (toCells io wd).cells) := by
  refine ⟨rfl, ?_, fun i h => ?_, fun i h => ?_⟩
  · show _ ∈ sortCells _
    rw [mem_sortCells]
    exact List.mem_cons_self _ _
  · show _ ∈ sortCells _
    rw [mem_sortCells]
    refine List.mem_cons_of_mem _ (List.mem_append_left _ (List.mem_append_left _ ?_))
    have hlen : i < wd.format.enum.length := by simpa [List.enum_length] using h
    have he : wd.format.enum[i] = (i, wd.format[i]) := List.getElem_enum _ _ hlen
    have hm : (i, wd.format[i]) ∈ wd.format.enum := he ▸ List.getElem_mem hlen
    exact List.mem_map_of_mem _ hm
  · show _ ∈ sortCells _
    rw [mem_sortCells]
    refine List.mem_cons_of_mem _ (List.mem_append_left _ (List.mem_append_right _ ?_))
    have hlen : i < wd.description.enum.length := by simpa [List.enum_length] using h
    have he : wd.description.enum[i] = (i, wd.description[i]) := List.getElem_enum _ _ hlen
    have hm : (i, wd.description[i]) ∈ wd.description.enum := he ▸ List.getElem_mem hlen
    exact List.mem_map_of_mem _ hm

/-- C10 witness: the layout theorem at a concrete worksheet. -/
theorem c10_toCells_layout_witness :
    OutCell.mk ((0 : Int) + 1) defaultInstOpts.attr_line (.str "_id") ∈
      (toCells defaultInstOpts
        { opts := .obj [], format := ["_id", "a"], description := ["key"],
          datas := [], name := none }).cells :=
  (c10_toCells_layout defaultInstOpts
    { opts := .obj [], format := ["_id", "a"], description := ["key"],
      datas := [], name := none }).2.2.1 0 (by decide)

/-- `convertSchema2Format` is its unsorted body followed by the final
sort. -/
theorem convertSchema2Format_eq_base (schema : JSchema) (refKeys : List String)
    (path : String) :
    convertSchema2Format schema refKeys path =
      (convertFormatBase schema refKeys path).map (sortFormat refKeys) := by
  unfold convertSchema2Format
  rfl

/-- One stripped-key group of the sorted format list. -/
def stripMatches (rk : String) (l : List String) : List String :=
  l.filter fun n => stripTypeSuffix n = rk

/-- The ranked groups drawn from a ref-key suffix starting at global
index `j`. -/
def refGroups (l : List String) (len : Int) : List String → Int → List (Option Int × String)
  | [], _ => []
  | rk :: rest, j =>
      ((stripMatches rk l).map fun n => ((some ((len - j) * (-1)) : Option Int), n))
        ++ refGroups l len rest (j + 1)

/-- The ranked entries outside the ref keys, in input order. -/
def noneGroup (refKeys : List String) (l : List String) : List (Option Int × String) :=
  (l.filter fun n => ¬ stripTypeSuffix n ∈ refKeys).map fun n => ((none : Option Int), n)

theorem jsIndexOfStr_go_not_mem (x : String) :
    ∀ (l : List String) (n : Int), x ∉ l → jsIndexOfStr.go x n l = -1
  | [], n, _ => rfl
  | y :: ys, n, h => by
    have hy : ¬ (y = x) := fun he => h (he ▸ List.mem_cons_self y ys)
    rw [jsIndexOfStr.go, if_neg hy]
    exact jsIndexOfStr_go_not_mem x ys (n + 1) (fun hm => h (List.mem_cons_of_mem y hm))

theorem jsIndexOfStr_go_first (x : String) :
    ∀ (A : List String) (B : List String) (n : Int), x ∉ A →
      jsIndexOfStr.go x n (A ++ x :: B) = n + A.length
  | [], B, n, _ => by simp [jsIndexOfStr.go]
  | a :: as, B, n, h => by
    have ha : ¬ (a = x) := fun he => h (he ▸ List.mem_cons_self a as)
    rw [List.cons_append, jsIndexOfStr.go, if_neg ha,
      jsIndexOfStr_go_first x as B (n + 1) (fun hm => h (List.mem_cons_of_mem a hm))]
    rw [List.length_cons]
    push_cast
    omega

/-- A stripped key outside the ref keys ranks as `undefined`. -/
theorem fmtRank_not_mem (refKeys : List String) (n : String)
    (h : stripTypeSuffix n ∉ refKeys) : fmtRank refKeys n = none := by
  have : jsIndexOfStr refKeys (stripTypeSuffix n) = -1 :=
    jsIndexOfStr_go_not_mem _ refKeys 0 h
  simp [fmtRank, this]

/-- A stripped key at position `A.length` of the ref keys gets the
negative rank of that position. -/
theorem fmtRank_first (A B : List String) (n : String)
    (h : stripTypeSuffix n ∉ A) :
    fmtRank (A ++ stripTypeSuffix n :: B) n =
      some ((((A ++ stripTypeSuffix n :: B).length : Int) - A.length) * (-1)) := by
  have hgo : jsIndexOfStr (A ++ stripTypeSuffix n :: B) (stripTypeSuffix n) = A.length := by
    have := jsIndexOfStr_go_first (stripTypeSuffix n) A B 0 h
    simpa [jsIndexOfStr] using this
  have hne : (A.length : Int) ≠ -1 := by omega
  simp [fmtRank, hgo, hne]

/-- Stable insertion passes a block of strictly smaller ranks. -/
theorem insertRanked_append (x : Option Int × String) :
    ∀ (A B : List (Option Int × String)), (∀ y ∈ A, rankLt y.1 x.1 = true) →
      insertRanked x (A ++ B) = A ++ insertRanked x B
  | [], B, _ => rfl
  | a :: as, B, h => by
    rw [List.cons_append, insertRanked, if_pos (h a (List.mem_cons_self a as)),
      insertRanked_append x as B (fun y hy => h y (List.mem_cons_of_mem a hy))]
    rfl

/-- Stable insertion stops in front of a block with no strictly
smaller rank. -/
theorem insertRanked_cons_not (x : Option Int × String)
    (C : List (Option Int × String)) (h : ∀ y ∈ C, rankLt y.1 x.1 = false) :
    insertRanked x C = x :: C := by
  cases C with
  | nil => rfl
  | cons c cs =>
    rw [insertRanked, if_neg]
    simp [h c (List.mem_cons_self c cs)]

theorem refGroups_nil_l (len : Int) :
    ∀ (rks : List String) (j : Int), refGroups [] len rks j = []
  | [], _ => rfl
  | rk :: rest, j => by
    rw [refGroups, refGroups_nil_l len rest (j + 1)]
    simp [stripMatches]

/-- Group lists ignore a new head whose stripped key lies outside the
ref-key suffix. -/
theorem refGroups_skip (n : String) (l : List String) (len : Int) :
    ∀ (rks : List String) (j : Int), stripTypeSuffix n ∉ rks →
      refGroups (n :: l) len rks j = refGroups l len rks j
  | [], _, _ => rfl
  | rk :: rest, j, h => by
    have h1 : ¬ (stripTypeSuffix n = rk) := fun he => h (he ▸ List.mem_cons_self rk rest)
    rw [refGroups, refGroups, refGroups_skip n l len rest (j + 1)
      (fun hm => h (List.mem_cons_of_mem rk hm))]
    simp [stripMatches, h1]

theorem refGroups_append (l : List String) (len : Int) :
    ∀ (P Q : List String) (j : Int),
      refGroups l len (P ++ Q) j = refGroups l len P j ++ refGroups l len Q (j + P.length)
  | [], Q, j => by simp [refGroups]
  | rk :: rest, Q, j => by
    rw [List.cons_append, refGroups, refGroups, refGroups_append l len rest Q (j + 1),
      List.append_assoc]
    have : j + 1 + (rest.length : Int) = j + ((rk :: rest).length : Int) := by
      rw [List.length_cons]
      push_cast
      omega
    rw [this]

/-- Every ranked-group entry carries the rank of some position inside
the suffix. -/
theorem refGroups_rank_mem (l : List String) (len : Int) :
    ∀ (rks : List String) (j : Int) (y : Option Int × String),
      y ∈ refGroups l len rks j →
      ∃ m : Int, j ≤ m ∧ m < j + rks.length ∧ y.1 = some ((len - m) * (-1))
  | [], _, _, h => by simp [refGroups] at h
  | rk :: rest, j, y, h => by
    rw [refGroups, List.mem_append] at h
    cases h with
    | inl h =>
      obtain ⟨n, _, rfl⟩ := List.mem_map.mp h
      exact ⟨j, le_refl j, by rw [List.length_cons]; push_cast; omega, rfl⟩
    | inr h =>
      obtain ⟨m, h1, h2, h3⟩ := refGroups_rank_mem l len rest (j + 1) y h
      exact ⟨m, by omega, by rw [List.length_cons]; push_cast; omega, h3⟩

theorem noneGroup_cons_mem (refKeys : List String) (n : String) (l : List String)
    (h : stripTypeSuffix n ∈ refKeys) :
    noneGroup refKeys (n :: l) = noneGroup refKeys l := by
  simp [noneGroup, h]

theorem noneGroup_cons_not (refKeys : List String) (n : String) (l : List String)
    (h : stripTypeSuffix n ∉ refKeys) :
    noneGroup refKeys (n :: l) = ((none : Option Int), n) :: noneGroup refKeys l := by
  simp [noneGroup, h]

theorem noneGroup_rank (refKeys : List String) (l : List String)
    (y : Option Int × String) (h : y ∈ noneGroup refKeys l) : y.1 = none := by
  simp only [noneGroup, List.mem_map] at h
  obtain ⟨n, _, rfl⟩ := h
  rfl

/-- Stable insertion into a block of smaller ranks followed by a
block with no smaller rank lands exactly between them. -/
theorem insertRanked_mid (x : Option Int × String)
    (A C : List (Option Int × String))
    (hA : ∀ y ∈ A, rankLt y.1 x.1 = true)
    (hC : ∀ y ∈ C, rankLt y.1 x.1 = false) :
    insertRanked x (A ++ C) = A ++ x :: C := by
  rw [insertRanked_append x A C hA, insertRanked_cons_not x C hC]

/-- The stable sort by `fmtRank` splits into the ref-key groups in
ref-key order followed by the remaining entries in input order. -/
theorem sortRanked_groups (refKeys : List String) (hnd : refKeys.Nodup) :
    ∀ l : List String,
      sortRanked (l.map fun n => (fmtRank refKeys n, n)) =
        refGroups l (refKeys.length : Int) refKeys 0 ++ noneGroup refKeys l
  | [] => by simp [sortRanked, refGroups_nil_l, noneGroup]
  | n :: l => by
    rw [List.map_cons, sortRanked, sortRanked_groups refKeys hnd l]
    by_cases hmem : stripTypeSuffix n ∈ refKeys
    · obtain ⟨A, B, hAB⟩ := List.append_of_mem hmem
      subst hAB
      have hdisj := List.disjoint_of_nodup_append hnd
      have hnotA : stripTypeSuffix n ∉ A := fun hA =>
        hdisj hA (List.mem_cons_self _ _)
      have hnotB : stripTypeSuffix n ∉ B :=
        (List.nodup_cons.mp (hnd.of_append_right)).1
      have hrank := fmtRank_first A B n hnotA
      have hsplitL : refGroups l ((A ++ stripTypeSuffix n :: B).length : Int)
            (A ++ stripTypeSuffix n :: B) 0 =
          refGroups l ((A ++ stripTypeSuffix n :: B).length : Int) A 0 ++
            (((stripMatches (stripTypeSuffix n) l).map fun m =>
                ((some ((((A ++ stripTypeSuffix n :: B).length : Int) - A.length) * (-1)) :
                    Option Int), m)) ++
              refGroups l ((A ++ stripTypeSuffix n :: B).length : Int) B
                ((A.length : Int) + 1)) := by
        rw [refGroups_append, refGroups]
        simp only [zero_add]
      have hsm : stripMatches (stripTypeSuffix n) (n :: l) =
          n :: stripMatches (stripTypeSuffix n) l := by
        simp [stripMatches]
      have hsplitNL : refGroups (n :: l) ((A ++ stripTypeSuffix n :: B).length : Int)
            (A ++ stripTypeSuffix n :: B) 0 =
          refGroups l ((A ++ stripTypeSuffix n :: B).length : Int) A 0 ++
            (((some ((((A ++ stripTypeSuffix n :: B).length : Int) - A.length) * (-1)) :
                Option Int), n) ::
              (((stripMatches (stripTypeSuffix n) l).map fun m =>
                  ((some ((((A ++ stripTypeSuffix n :: B).length : Int) - A.length) * (-1)) :
                      Option Int), m)) ++
                refGroups l ((A ++ stripTypeSuffix n :: B).length : Int) B
                  ((A.length : Int) + 1))) := by
        rw [refGroups_append, refGroups,
          refGroups_skip n l _ A 0 hnotA, refGroups_skip n l _ B _ hnotB, hsm]
        simp only [zero_add, List.map_cons, List.cons_append]
      rw [hrank, hsplitL, noneGroup_cons_mem _ n l hmem, List.append_assoc,
        insertRanked_mid]
      · rw [hsplitNL]
        simp [List.append_assoc]
      · intro y hy
        obtain ⟨m, h1, h2, h3⟩ := refGroups_rank_mem l _ A 0 y hy
        rw [h3]
        simp only [rankLt, decide_eq_true_eq]
        omega
      · intro y hy
        rw [List.mem_append] at hy
        cases hy with
        | inl hy =>
          rw [List.mem_append] at hy
          cases hy with
          | inl hy =>
            obtain ⟨mm, _, rfl⟩ := List.mem_map.mp hy
            simp [rankLt]
          | inr hy =>
            obtain ⟨m, h1, h2, h3⟩ := refGroups_rank_mem l _ B _ y hy
            rw [h3]
            simp only [rankLt, decide_eq_false_iff_not]
            omega
        | inr hy =>
          rw [noneGroup_rank _ l y hy]
          rfl
    · rw [fmtRank_not_mem refKeys n hmem, refGroups_skip n l _ refKeys 0 hmem,
        noneGroup_cons_not refKeys n l hmem, insertRanked_mid]
      · intro y hy
        obtain ⟨m, _, _, h3⟩ := refGroups_rank_mem l _ refKeys 0 y hy
        rw [h3]
        rfl
      · intro y hy
        rw [noneGroup_rank refKeys l y hy]
        rfl

/-- Dropping the ranks from the ref-key groups yields the
concatenation of the filtered groups. -/
theorem refGroups_snd (l : List String) (len : Int) :
    ∀ (rks : List String) (j : Int),
      (refGroups l len rks j).map (·.2) =
        rks.flatMap fun rk => l.filter fun n => stripTypeSuffix n = rk
  | [], _ => rfl
  | rk :: rest, j => by
    rw [refGroups, List.map_append, refGroups_snd l len rest (j + 1)]
    simp [stripMatches]

/-- `_.sortBy` with the `convertSchema2Format` rank: the ref-key
entries come first, in ref-key order, followed by every other entry in
input order. -/
theorem sortFormat_split (refKeys : List String) (hnd : refKeys.Nodup)
    (l : List String) :
    sortFormat refKeys l =
      (refKeys.flatMap fun rk => l.filter fun n => stripTypeSuffix n = rk) ++
        l.filter (fun n => ¬ stripTypeSuffix n ∈ refKeys) := by
  rw [sortFormat, sortRanked_groups refKeys hnd l, List.map_append,
    refGroups_snd l _ refKeys 0]
  congr 1
  simp [noneGroup, List.map_map]

/-- C7: for every schema the convertor accepts, the returned list is
the entries whose stripped key occurs in the (duplicate-free)
configured ref keys first, grouped in ref-key order, followed by all
remaining entries in their original discovery order (`base` being the
accumulated pre-sort list). -/
theorem c7_schema_format_order (schema : JSchema) (refKeys : List String)
    (path : String) (base : List String) (hnd : refKeys.Nodup)
    (hbase : convertFormatBase schema refKeys path = .ok base) :
    convertSchema2Format schema refKeys path =
      .ok ((refKeys.flatMap fun rk => base.filter fun n => stripTypeSuffix n = rk) ++
        base.filter (fun n => ¬ stripTypeSuffix n ∈ refKeys)) := by
  rw [convertSchema2Format_eq_base, hbase, Except.map,
    sortFormat_split refKeys hnd base]

/-- The schema of the C7 witness: an object whose ref-key property is
discovered second. -/
def c7Schema : JSchema :=
  .mk "object" none
    [ ("str", .mk "string" none [] [] [] none),
      ("_id", .mk "string" none [] [] [] none),
      ("arr", .mk "array" (some (.mk "number" none [] [] [] none)) [] [] [] none) ]
    [] [] none

/-- C7 witness: the ordering theorem applied to a concrete schema. -/
theorem c7_schema_format_order_witness :
    convertSchema2Format c7Schema ["_id"] "" =
      .ok (((["_id"] : List String).flatMap fun rk =>
              (["str:string", "_id:string", "$arr:number"] : List String).filter
                fun n => stripTypeSuffix n = rk) ++
        (["str:string", "_id:string", "$arr:number"] : List String).filter
          (fun n => ¬ stripTypeSuffix n ∈ (["_id"] : List String))) :=
  c7_schema_format_order c7Schema ["_id"] "" ["str:string", "_id:string", "$arr:number"]
    (by simp) (by simp [convertFormatBase, convertSchema2Format, c7Schema]; rfl)

/-!
## C1: the plain-tabular round trip

`flatten(fold(grid)) = grid` on the data cells, for grids in plain
tabular form: untyped marker-free attribute keys, pairwise distinct,
first column the default ref key, full consecutive data rows.
-/

/-- A plain attribute key: non-empty, free of the path/type/index
metacharacters, not a synthetic link key and not the name of the one
non-identity stringifier. -/
def plainKey (k : String) : Prop :=
  k ≠ "" ∧
  (∀ c ∈ k.toList, c ≠ '.' ∧ c ≠ '#' ∧ c ≠ '$' ∧ c ≠ ':' ∧ c ≠ '[' ∧ c ≠ ']') ∧
  k ≠ "__ref" ∧ k ≠ "__ref_0" ∧ k ≠ "date"

instance (k : String) : Decidable (plainKey k) := by
  unfold plainKey
  infer_instance

/-- The attribute header cells of a plain grid (row 2). -/
def attrCells (cols keys : List String) : List FCell :=
  (cols.zip keys).map fun p => ⟨p.1 ++ "2", p.1, 2, p.2⟩

/-- One data row's cells. -/
def rowCells (cols : List String) (r : Nat) (vals : List String) : List FCell :=
  (cols.zip vals).map fun p => ⟨p.1 ++ toString r, p.1, r, p.2⟩

/-- The data rows from row `r0` down, one row per record. -/
def dataRowsCells (cols : List String) : List (List String) → Nat → List FCell
  | [], _ => []
  | v :: vs, r0 => rowCells cols r0 v ++ dataRowsCells cols vs (r0 + 1)

/-- A plain tabular grid: header row 2, data rows from row 4. -/
def mkPlainGrid (cols keys : List String) (rows : List (List String)) : List FCell :=
  attrCells cols keys ++ dataRowsCells cols rows 4

/-- The records such a grid folds to: one flat object per row. -/
def c1Records (keys : List String) (rows : List (List String)) : List JVal :=
  rows.map fun r => .obj (keys.zip (r.map JVal.str))

/-- The sheet options such a grid folds to: the defaults plus one
descriptor per column. -/
def c1FoldOpts (cols keys : List String) : FOpts :=
  { attr_line := 2, data_line := 4, ref_keys := ["_id"],
    format := (cols.zip keys).map fun p => (p.1, parseAttr p.2),
    key := none, type := none, name := none }

/-- The grid's own data cells in output form (column letters replaced
by their 1-based positions). -/
def origDataCells (rows : List (List String)) : List OutCell :=
  rows.enum.flatMap fun p =>
    p.2.enum.map fun q => OutCell.mk ((q.1 : Int) + 1) ((4 : Int) + p.1) (.str q.2)

theorem strMk_toList (s : String) : String.mk s.toList = s := rfl

theorem takeWhile_all {α : Type} (p : α → Bool) :
    ∀ l : List α, (∀ c ∈ l, p c = true) → l.takeWhile p = l
  | [], _ => rfl
  | c :: cs, h => by
    rw [List.takeWhile_cons, if_pos (h c (List.mem_cons_self c cs)),
      takeWhile_all p cs (fun x hx => h x (List.mem_cons_of_mem c hx))]

theorem find?_cons_false {α : Type} (p : α → Bool) (a : α) (l : List α)
    (h : p a = false) : (a :: l).find? p = l.find? p := by
  simp [List.find?_cons, h]

theorem splitChar_go_no_sep (sep : Char) :
    ∀ (cs acc : List Char), (∀ c ∈ cs, c ≠ sep) →
      splitChar.go sep acc cs = [String.mk (acc.reverse ++ cs)]
  | [], acc, _ => by simp [splitChar.go]
  | c :: cs, acc, h => by
    have hstep : splitChar.go sep acc (c :: cs) =
        if c = sep then String.mk acc.reverse :: splitChar.go sep [] cs
        else splitChar.go sep (c :: acc) cs := rfl
    rw [hstep, if_neg (h c (List.mem_cons_self c cs)),
      splitChar_go_no_sep sep cs (c :: acc) (fun x hx => h x (List.mem_cons_of_mem c hx))]
    simp

/-- Splitting on a character the string does not contain returns the
string whole. -/
theorem splitChar_no_sep (sep : Char) (s : String)
    (h : ∀ c ∈ s.toList, c ≠ sep) : splitChar sep s = [s] := by
  have h0 : splitChar sep s = splitChar.go sep [] s.toList := rfl
  rw [h0, splitChar_go_no_sep sep s.toList [] h]
  rfl

/-- A colon-free string has no attribute suffix. -/
theorem lastColonSplit_no_colon (s : String)
    (h : ∀ c ∈ s.toList, c ≠ ':') : lastColonSplit s = none := by
  have hr : s.data.reverse.takeWhile (fun x => !decide (x = ':')) = s.data.reverse := by
    apply takeWhile_all
    intro c hc
    simpa using h c (List.mem_reverse.mp hc)
  simp [lastColonSplit, hr]

/-- A plain key parses to an untyped single-segment descriptor. -/
theorem parseAttr_plain (k : String) (hp : plainKey k) :
    parseAttr k = ⟨"", k, [k]⟩ := by
  obtain ⟨-, hc, -⟩ := hp
  have hns : lastColonSplit k = none :=
    lastColonSplit_no_colon k (fun c h => (hc c h).2.2.2.1)
  rw [parseAttr, stripTypeSuffix, attrTypeSuffix, hns]
  simp [splitChar_no_sep '.' k (fun c h => (hc c h).1)]

theorem objFind_fresh (fields : List (String × JVal)) (k : String)
    (h : ∀ p ∈ fields, p.1 ≠ k) : objFind fields k = .undef := by
  induction fields with
  | nil => rfl
  | cons p rest ih =>
    rw [objFind_cons, if_neg (h p (List.mem_cons_self p rest))]
    exact ih (fun q hq => h q (List.mem_cons_of_mem p hq))

theorem objSetA_fresh (fields : List (String × JVal)) (k : String) (v : JVal)
    (h : ∀ p ∈ fields, p.1 ≠ k) : objSetA fields k v = fields ++ [(k, v)] := by
  induction fields with
  | nil => rfl
  | cons p rest ih =>
    obtain ⟨k1, v1⟩ := p
    rw [objSetA, if_neg (h (k1, v1) (List.mem_cons_self (k1, v1) rest))]
    rw [show objSetA rest k v = rest ++ [(k, v)] from
      ih (fun q hq => h q (List.mem_cons_of_mem (k1, v1) hq))]
    rfl

theorem objSetFmt_fresh (m : List (String × FmtDesc)) (k : String) (v : FmtDesc)
    (h : ∀ p ∈ m, p.1 ≠ k) : objSetFmt m k v = m ++ [(k, v)] := by
  induction m with
  | nil => rfl
  | cons p rest ih =>
    obtain ⟨k1, v1⟩ := p
    rw [objSetFmt, if_neg (h (k1, v1) (List.mem_cons_self (k1, v1) rest))]
    rw [show objSetFmt rest k v = rest ++ [(k, v)] from
      ih (fun q hq => h q (List.mem_cons_of_mem (k1, v1) hq))]
    rfl

/-- Looking a column up in the folded format map. -/
theorem lookup_fmt_of_zip_mem :
    ∀ (cols keys : List String), cols.Nodup →
      ∀ c k, (c, k) ∈ cols.zip keys →
        ((((cols.zip keys).map fun p => (p.1, parseAttr p.2)).find?
            (fun p => p.1 = c)).map (·.2)) = some (parseAttr k)
  | [], _, _, c, k, hm => by simp at hm
  | c0 :: cols, [], _, c, k, hm => by simp at hm
  | c0 :: cols, k0 :: keys, hnd, c, k, hm => by
    rw [List.zip_cons_cons] at hm
    rcases List.mem_cons.mp hm with he | hm2
    · have h1 : c = c0 ∧ k = k0 := by simpa using he
      obtain ⟨rfl, rfl⟩ := h1
      simp
    · have hc : c ∈ cols := (List.of_mem_zip hm2).1
      have hne : ¬ (c0 = c) := fun he2 => (List.nodup_cons.mp hnd).1 (he2 ▸ hc)
      rw [List.zip_cons_cons, List.map_cons,
        find?_cons_false _ _ _ (by simpa using hne)]
      exact lookup_fmt_of_zip_mem cols keys (List.nodup_cons.mp hnd).2 c k hm2

/-- A grid with two data columns bound to the same plain attribute key
`a`, carrying distinct values `"1"` and `"2"` in row 4. -/
def c1Grid : List FCell :=
  [⟨"A2", "A", 2, "_id"⟩, ⟨"B2", "B", 2, "a"⟩, ⟨"C2", "C", 2, "a"⟩,
   ⟨"A4", "A", 4, "x"⟩, ⟨"B4", "B", 4, "1"⟩, ⟨"C4", "C", 4, "2"⟩]

/-- C1, counterexample.  The fold/flatten pair is NOT inverse on every
grid: on `c1Grid` the fold keeps only the first of the two `a` column
values (first-write-wins), and flattening the folded record back out
writes that surviving value into BOTH `a` columns, so the col-3/row-4
cell comes back as `"1"` where the original grid held `"2"`. -/
theorem c1_counterexample :
    (spreadFormat defaultInstOpts c1Grid).map (·.list) =
        .ok [.obj [("_id", .str "x"), ("a", .str "1")]] ∧
    ((toCells defaultInstOpts
        { opts := .obj [], format := ["_id", "a", "a"], description := [],
          datas := [.obj [("_id", .str "x"), ("a", .str "1")]], name := none }).cells.filter
      fun c => (4 : Int) ≤ c.row) =
      [⟨1, 4, .str "x"⟩, ⟨2, 4, .str "1"⟩, ⟨3, 4, .str "1"⟩] ∧
    (c1Grid.filter fun c => c.row = 4).map
        (fun c => OutCell.mk (columnToNumber c.column) (c.row : Int) (.str c.value)) =
      [⟨1, 4, .str "x"⟩, ⟨2, 4, .str "1"⟩, ⟨3, 4, .str "2"⟩] ∧
    ([⟨1, 4, .str "x"⟩, ⟨2, 4, .str "1"⟩, ⟨3, 4, (.str "1" : JVal)⟩] : List OutCell) ≠
      [⟨1, 4, .str "x"⟩, ⟨2, 4, .str "1"⟩, ⟨3, 4, .str "2"⟩] :=
  ⟨rfl, rfl, rfl, by simp⟩

theorem plain_headIs (k : String) (hp : plainKey k) :
    headIs k '#' = false ∧ headIs k '$' = false := by
  obtain ⟨-, hc, -⟩ := hp
  cases hk : k.data with
  | nil => constructor <;> simp [headIs, String.toList, hk]
  | cons x xs =>
    have hx := hc x (by show x ∈ k.data; rw [hk]; exact List.mem_cons_self x xs)
    constructor <;> simp [headIs, String.toList, hk, hx.2.1, hx.2.2.1]

/-- `formatStep` on a data cell whose column descriptor does not start
a record: the cell value folds into the last record in place. -/
theorem formatStep_nonstart (io : InstOpts) (st : FmtState) (cell : FCell)
    (fmt : FmtDesc) (data : JVal)
    (h0 : st.beforeRow = some cell.row)
    (h1 : cell.cell ≠ io.option_cell)
    (h2 : (cell.row : Int) ≠ st.opts.attr_line)
    (h3 : ¬ ((cell.row : Int) < st.opts.data_line))
    (h4 : (st.opts.format.find? (fun p => p.1 = cell.column)).map (·.2) = some fmt)
    (h5 : fmt.type ≠ "index")
    (h6 : isRecordStart st.opts fmt = false)
    (h7 : st.list.getLast? = some data) :
    formatStep io st cell =
      (foldKeys fmt.type cell.value st.idx data [] fmt.keys).map fun p =>
        { opts := st.opts, beforeRow := some cell.row, idx := p.1
          list := st.list.dropLast ++ [p.2] } := by
  simp only [formatStep, h0, h1, h2, h3, h4, h5, h6, h7, if_true, if_false, ite_not,
    reduceIte, ne_eq, not_false_eq_true, not_true_eq_false, Bool.false_eq_true]
  cases hfk : foldKeys fmt.type cell.value st.idx data [] fmt.keys with
  | ok p => simp [hfk, Except.map, h0]
  | error e => simp [hfk, Except.map]

/-- `formatStep` on a record-start data cell: the counters reset and
the cell value folds into a fresh record appended to the list. -/
theorem formatStep_start (io : InstOpts) (st : FmtState) (cell : FCell) (fmt : FmtDesc)
    (h1 : cell.cell ≠ io.option_cell)
    (h2 : (cell.row : Int) ≠ st.opts.attr_line)
    (h3 : ¬ ((cell.row : Int) < st.opts.data_line))
    (h4 : (st.opts.format.find? (fun p => p.1 = cell.column)).map (·.2) = some fmt)
    (h5 : fmt.type ≠ "index")
    (h6 : isRecordStart st.opts fmt = true) :
    formatStep io st cell =
      (foldKeys fmt.type cell.value [] (.obj []) [] fmt.keys).map fun p =>
        { opts := st.opts, beforeRow := some cell.row, idx := p.1
          list := st.list ++ [p.2] } := by
  by_cases hbr : st.beforeRow = some cell.row <;>
  · simp only [formatStep, hbr, h1, h2, h3, h4, h5, h6, if_true, if_false, ite_not,
      reduceIte, ne_eq, not_false_eq_true, not_true_eq_false]
    cases hfk : foldKeys fmt.type cell.value [] (.obj []) [] fmt.keys with
    | ok p =>
      simp [hfk, List.getLast?_concat, List.dropLast_concat, Except.map]
    | error e =>
      simp [hfk, List.getLast?_concat, Except.map]

/-- One plain non-`_id` cell of a data row appends its field to the
open record. -/
theorem c1_cell_step (cols keys : List String) (hnd : cols.Nodup)
    (c k v : String) (hm : (c, k) ∈ cols.zip keys) (hp : plainKey k)
    (hk : k ≠ "_id") (r : Nat) (hr : 4 ≤ r) (hA1 : c ++ toString r ≠ "A1")
    (pf : List (String × JVal)) (hfresh : ∀ p ∈ pf, p.1 ≠ k) (L : List JVal) :
    formatStep defaultInstOpts
      { opts := c1FoldOpts cols keys, beforeRow := some r, idx := [],
        list := L ++ [.obj pf] } ⟨c ++ toString r, c, r, v⟩ =
    .ok { opts := c1FoldOpts cols keys, beforeRow := some r, idx := [],
          list := L ++ [.obj (pf ++ [(k, .str v)])] } := by
  have hh := plain_headIs k hp
  have hfmt : (((c1FoldOpts cols keys).format.find? (fun p => p.1 = c)).map (·.2)) =
      some ⟨"", k, [k]⟩ := by
    have h := lookup_fmt_of_zip_mem cols keys hnd c k hm
    rw [parseAttr_plain k hp] at h
    exact h
  have hstart : isRecordStart (c1FoldOpts cols keys) ⟨"", k, [k]⟩ = false := by
    obtain ⟨-, -, hr1, hr2, -⟩ := hp
    simp [isRecordStart, c1FoldOpts, optTruthy, hr1, hr2]
    exact fun h => hk h.symm
  have h5 : FmtDesc.type ⟨"", k, [k]⟩ ≠ "index" := by simp
  rw [formatStep_nonstart defaultInstOpts _ _ ⟨"", k, [k]⟩ (.obj pf) rfl hA1
    (by simp [c1FoldOpts]; omega) (by simp [c1FoldOpts]; omega) hfmt h5 hstart
    (List.getLast?_concat _)]
  rw [foldKeys_single_plain "" v [] pf [] k hh.1 hh.2]
  rw [objFind_fresh pf k hfresh]
  simp [objSetA_fresh pf k _ hfresh, List.dropLast_concat, Except.map, leafValue,
    coerceRegistry, jsTruthy]

/-- The tail of a plain data row: each cell appends one field. -/
theorem c1_row_tail (cols keys : List String) (hnd : cols.Nodup) (r : Nat) (hr : 4 ≤ r) :
    ∀ (T : List (String × String × String)) (pf : List (String × JVal)) (L : List JVal),
      (∀ t ∈ T, (t.1, t.2.1) ∈ cols.zip keys) →
      (∀ t ∈ T, plainKey t.2.1) →
      (∀ t ∈ T, t.2.1 ≠ "_id") →
      ((T.map (·.2.1)).Nodup) →
      (∀ t ∈ T, ∀ p ∈ pf, p.1 ≠ t.2.1) →
      (∀ t ∈ T, t.1 ++ toString r ≠ "A1") →
      List.foldlM (formatStep defaultInstOpts)
        { opts := c1FoldOpts cols keys, beforeRow := some r, idx := [],
          list := L ++ [.obj pf] }
        (T.map fun t => ⟨t.1 ++ toString r, t.1, r, t.2.2⟩) =
      .ok { opts := c1FoldOpts cols keys, beforeRow := some r, idx := [],
            list := L ++ [.obj (pf ++ T.map fun t => (t.2.1, .str t.2.2))] }
  | [], pf, L, _, _, _, _, _, _ => by
    simp only [List.map_nil, List.foldlM_nil, List.append_nil]
    rfl
  | t :: T, pf, L, hT, hTp, hTid, hTnd, hfr, hA1 => by
    rw [List.map_cons, List.foldlM_cons,
      c1_cell_step cols keys hnd t.1 t.2.1 t.2.2 (hT t (List.mem_cons_self t T))
        (hTp t (List.mem_cons_self t T)) (hTid t (List.mem_cons_self t T)) r hr
        (hA1 t (List.mem_cons_self t T)) pf
        (fun p hp => hfr t (List.mem_cons_self t T) p hp) L]
    have hbind : ∀ (s : FmtState) (f : FmtState → Except String FmtState),
        (Except.ok s >>= f) = f s := fun _ _ => rfl
    rw [hbind]
    have hfr2 : ∀ u ∈ T, ∀ p ∈ pf ++ [(t.2.1, JVal.str t.2.2)], p.1 ≠ u.2.1 := by
      intro u hu p hp
      rcases List.mem_append.mp hp with h | h
      · exact hfr u (List.mem_cons_of_mem t hu) p h
      · have hp1 : p.1 = t.2.1 := by
          have hpe : p = (t.2.1, JVal.str t.2.2) := by simpa using h
          rw [hpe]
        rw [hp1]
        have hne : t.2.1 ∉ T.map (·.2.1) := by
          rw [List.map_cons] at hTnd
          exact (List.nodup_cons.mp hTnd).1
        exact fun he => hne (he ▸ List.mem_map_of_mem (·.2.1) hu)
    have hrec := c1_row_tail cols keys hnd r hr T (pf ++ [(t.2.1, JVal.str t.2.2)]) L
      (fun u hu => hT u (List.mem_cons_of_mem t hu))
      (fun u hu => hTp u (List.mem_cons_of_mem t hu))
      (fun u hu => hTid u (List.mem_cons_of_mem t hu))
      (by rw [List.map_cons] at hTnd; exact (List.nodup_cons.mp hTnd).2)
      hfr2
      (fun u hu => hA1 u (List.mem_cons_of_mem t hu))
    rw [hrec]
    simp

/-- One full plain data row: the `_id` cell opens a record, the rest
fill it. -/
theorem c1_row (cols keys : List String) (hnd : cols.Nodup)
    (r : Nat) (hr : 4 ≤ r) (c0 v0 : String)
    (hm0 : (c0, "_id") ∈ cols.zip keys)
    (hA10 : c0 ++ toString r ≠ "A1")
    (T : List (String × String × String))
    (hT : ∀ t ∈ T, (t.1, t.2.1) ∈ cols.zip keys)
    (hTp : ∀ t ∈ T, plainKey t.2.1)
    (hTid : ∀ t ∈ T, t.2.1 ≠ "_id")
    (hTnd : (T.map (·.2.1)).Nodup)
    (hA1 : ∀ t ∈ T, t.1 ++ toString r ≠ "A1")
    (br : Option Nat) (L : List JVal) :
    List.foldlM (formatStep defaultInstOpts)
      { opts := c1FoldOpts cols keys, beforeRow := br, idx := [], list := L }
      (⟨c0 ++ toString r, c0, r, v0⟩ ::
        (T.map fun t => ⟨t.1 ++ toString r, t.1, r, t.2.2⟩)) =
    .ok { opts := c1FoldOpts cols keys, beforeRow := some r, idx := [],
          list := L ++ [.obj (("_id", .str v0) :: T.map fun t => (t.2.1, .str t.2.2))] } := by
  have hidp : plainKey "_id" := by decide
  have hfmt : (((c1FoldOpts cols keys).format.find? (fun p => p.1 = c0)).map (·.2)) =
      some ⟨"", "_id", ["_id"]⟩ := by
    have h := lookup_fmt_of_zip_mem cols keys hnd c0 "_id" hm0
    rw [parseAttr_plain "_id" hidp] at h
    exact h
  have hstart : isRecordStart (c1FoldOpts cols keys) ⟨"", "_id", ["_id"]⟩ = true := by
    simp [isRecordStart, c1FoldOpts, optTruthy]
  have h5 : FmtDesc.type ⟨"", "_id", ["_id"]⟩ ≠ "index" := by simp
  rw [List.foldlM_cons,
    formatStep_start defaultInstOpts _ _ ⟨"", "_id", ["_id"]⟩ hA10
      (by simp [c1FoldOpts]; omega) (by simp [c1FoldOpts]; omega) hfmt h5 hstart]
  have hfk : foldKeys "" v0 [] (.obj []) [] ["_id"] =
      .ok ([], .obj [("_id", .str v0)]) := rfl
  rw [hfk]
  simp only [Except.map, Bind.bind, Except.bind]
  rw [c1_row_tail cols keys hnd r hr T [("_id", .str v0)] L hT hTp hTid hTnd
    (by
      intro u hu p hp
      have hpe : p = ("_id", JVal.str v0) := by simpa using hp
      rw [hpe]
      exact fun he => hTid u hu he.symm)
    hA1]
  simp

theorem zip3_map_13 :
    ∀ (as bs cs : List String), bs.length = cs.length →
      (as.zip (bs.zip cs)).map (fun t => (t.1, t.2.2)) = as.zip cs
  | [], _, _, _ => by simp
  | a :: as, [], cs, h => by
    cases cs with
    | nil => simp
    | cons c cs => simp at h
  | a :: as, b :: bs, [], h => by simp at h
  | a :: as, b :: bs, c :: cs, h => by
    simp only [List.zip_cons_cons, List.map_cons]
    rw [zip3_map_13 as bs cs (by simpa using h)]

theorem zip3_map_2str :
    ∀ (as bs cs : List String), as.length = bs.length → bs.length = cs.length →
      (as.zip (bs.zip cs)).map (fun t => (t.2.1, JVal.str t.2.2)) =
        bs.zip (cs.map JVal.str)
  | [], bs, cs, h, _ => by
    cases bs with
    | nil => simp
    | cons b bs => simp at h
  | a :: as, [], cs, h, _ => by simp at h
  | a :: as, b :: bs, [], _, h2 => by simp at h2
  | a :: as, b :: bs, c :: cs, h, h2 => by
    simp only [List.zip_cons_cons, List.map_cons]
    rw [zip3_map_2str as bs cs (by simpa using h) (by simpa using h2)]

theorem zip3_map_21 :
    ∀ (as bs cs : List String), as.length = bs.length → bs.length = cs.length →
      (as.zip (bs.zip cs)).map (fun t => t.2.1) = bs
  | [], bs, cs, h, _ => by
    cases bs with
    | nil => simp
    | cons b bs => simp at h
  | a :: as, [], cs, h, _ => by simp at h
  | a :: as, b :: bs, [], _, h2 => by simp at h2
  | a :: as, b :: bs, c :: cs, h, h2 => by
    simp only [List.zip_cons_cons, List.map_cons]
    rw [zip3_map_21 as bs cs (by simpa using h) (by simpa using h2)]

theorem zip3_mem_12 :
    ∀ (as bs cs : List String) (t : String × String × String),
      t ∈ as.zip (bs.zip cs) → (t.1, t.2.1) ∈ as.zip bs
  | [], _, _, t, hm => by simp at hm
  | a :: as, [], _, t, hm => by simp at hm
  | a :: as, b :: bs, [], t, hm => by simp at hm
  | a :: as, b :: bs, c :: cs, t, hm => by
    rw [List.zip_cons_cons, List.zip_cons_cons] at hm
    rw [List.zip_cons_cons]
    rcases List.mem_cons.mp hm with he | hm2
    · rw [he]
      exact List.mem_cons_self _ _
    · exact List.mem_cons_of_mem _ (zip3_mem_12 as bs cs t hm2)

/-- The data phase of a plain grid: each row folds to one flat
record. -/
theorem c1_rows (c0 : String) (ctl ktl : List String)
    (hnd : (c0 :: ctl).Nodup) (hlen : ctl.length = ktl.length)
    (hplain : ∀ k ∈ ("_id" :: ktl), plainKey k)
    (hknd : ("_id" :: ktl).Nodup) :
    ∀ (rows : List (List String)) (r0 : Nat), 4 ≤ r0 →
      ∀ (br : Option Nat) (L : List JVal),
      (∀ v ∈ rows, v.length = ktl.length + 1) →
      (∀ cl ∈ dataRowsCells (c0 :: ctl) rows r0, cl.cell ≠ "A1") →
      ∃ br2,
        List.foldlM (formatStep defaultInstOpts)
          { opts := c1FoldOpts (c0 :: ctl) ("_id" :: ktl), beforeRow := br, idx := [],
            list := L }
          (dataRowsCells (c0 :: ctl) rows r0) =
        .ok { opts := c1FoldOpts (c0 :: ctl) ("_id" :: ktl), beforeRow := br2, idx := [],
              list := L ++ c1Records ("_id" :: ktl) rows }
  | [], r0, hr, br, L, _, _ => ⟨br, by
    simp only [dataRowsCells, c1Records, List.map_nil, List.foldlM_nil, List.append_nil]
    rfl⟩
  | v :: vs, r0, hr, br, L, hvl, hA1 => by
    cases v with
    | nil =>
      have := hvl [] (List.mem_cons_self _ _)
      simp at this
    | cons v0 vtl =>
      have hvlen : vtl.length = ktl.length := by
        have := hvl (v0 :: vtl) (List.mem_cons_self _ _)
        simpa using this
      set T := ctl.zip (ktl.zip vtl) with hTdef
      have hrowT : rowCells (c0 :: ctl) r0 (v0 :: vtl) =
          ⟨c0 ++ toString r0, c0, r0, v0⟩ ::
            (T.map fun t => ⟨t.1 ++ toString r0, t.1, r0, t.2.2⟩) := by
        rw [rowCells, List.zip_cons_cons, List.map_cons]
        congr 1
        rw [hTdef, ← zip3_map_13 ctl ktl vtl hvlen.symm, List.map_map]
        rfl
      rw [dataRowsCells, List.foldlM_append, hrowT]
      have hmemT : ∀ t ∈ T, (t.1, t.2.1) ∈ ctl.zip ktl := fun t ht =>
        zip3_mem_12 ctl ktl vtl t ht
      have hrow := c1_row (c0 :: ctl) ("_id" :: ktl) hnd r0 hr c0 v0
        (by rw [List.zip_cons_cons]; exact List.mem_cons_self _ _)
        (by
          refine hA1 ⟨c0 ++ toString r0, c0, r0, v0⟩ ?_
          rw [dataRowsCells]
          refine List.mem_append_left _ ?_
          rw [hrowT]
          exact List.mem_cons_self _ _)
        T
        (fun t ht => by
          rw [List.zip_cons_cons]
          exact List.mem_cons_of_mem _ (hmemT t ht))
        (fun t ht => hplain t.2.1
          (List.mem_cons_of_mem _ ((List.of_mem_zip (hmemT t ht)).2)))
        (fun t ht => fun he =>
          (List.nodup_cons.mp hknd).1 (he ▸ (List.of_mem_zip (hmemT t ht)).2))
        (by
          rw [hTdef, zip3_map_21 ctl ktl vtl hlen hvlen.symm]
          exact (List.nodup_cons.mp hknd).2)
        (fun t ht => by
          refine hA1 ⟨t.1 ++ toString r0, t.1, r0, t.2.2⟩ ?_
          rw [dataRowsCells]
          refine List.mem_append_left _ ?_
          rw [hrowT]
          exact List.mem_cons_of_mem _ (List.mem_map_of_mem _ ht))
        br L
      rw [hrow]
      have hbind : ∀ (s : FmtState) (f : FmtState → Except String FmtState),
          (Except.ok s >>= f) = f s := fun _ _ => rfl
      rw [hbind]
      have hrec := c1_rows c0 ctl ktl hnd hlen hplain hknd vs (r0 + 1) (by omega)
        (some r0) (L ++ [.obj (("_id", .str v0) :: T.map fun t => (t.2.1, .str t.2.2))])
        (fun u hu => hvl u (List.mem_cons_of_mem _ hu))
        (fun cl hcl => hA1 cl (by
          rw [dataRowsCells]
          exact List.mem_append_right _ hcl))
      obtain ⟨br2, hrec⟩ := hrec
      refine ⟨br2, ?_⟩
      rw [hrec]
      have hrecord : (("_id", JVal.str v0) :: T.map fun t => (t.2.1, .str t.2.2)) =
          ("_id" :: ktl).zip ((v0 :: vtl).map JVal.str) := by
        rw [List.map_cons, List.zip_cons_cons, hTdef,
          zip3_map_2str ctl ktl vtl hlen hvlen.symm]
      rw [hrecord]
      simp [c1Records]

/-- `formatStep` on an attribute-line cell records the column's parsed
descriptor. -/
theorem formatStep_attr (io : InstOpts) (st : FmtState) (cell : FCell)
    (h0i : st.idx = [])
    (h1 : cell.cell ≠ io.option_cell)
    (h2 : (cell.row : Int) = st.opts.attr_line) :
    formatStep io st cell =
      .ok { opts := { st.opts with
              format := objSetFmt st.opts.format cell.column (parseAttr cell.value) },
            beforeRow := some cell.row, idx := st.idx, list := st.list } := by
  by_cases hbr : st.beforeRow = some cell.row <;>
    simp [formatStep, hbr, h0i, h1, h2]

/-- The attribute phase of a plain grid folds to the column
descriptor map, in column order. -/
theorem c1_attr_fold :
    ∀ (Z : List (String × String)) (F : List (String × FmtDesc)) (br : Option Nat),
      (∀ p ∈ Z, ∀ q ∈ F, q.1 ≠ p.1) →
      ((Z.map (·.1)).Nodup) →
      (∀ p ∈ Z, p.1 ++ "2" ≠ "A1") →
      ∃ br2,
        List.foldlM (formatStep defaultInstOpts)
          { opts := { attr_line := 2, data_line := 4, ref_keys := ["_id"], format := F,
                      key := none, type := none, name := none },
            beforeRow := br, idx := [], list := [] }
          (Z.map fun p => ⟨p.1 ++ "2", p.1, 2, p.2⟩) =
        .ok { opts := { attr_line := 2, data_line := 4, ref_keys := ["_id"],
                        format := F ++ Z.map fun p => (p.1, parseAttr p.2),
                        key := none, type := none, name := none },
              beforeRow := br2, idx := [], list := [] }
  | [], F, br, _, _, _ => ⟨br, by
    simp only [List.map_nil, List.foldlM_nil, List.append_nil]
    rfl⟩
  | p :: Z, F, br, hfr, hnd, hA1 => by
    rw [List.map_cons, List.foldlM_cons,
      formatStep_attr defaultInstOpts _ ⟨p.1 ++ "2", p.1, 2, p.2⟩ rfl
        (hA1 p (List.mem_cons_self p Z)) rfl]
    have hbind : ∀ (s : FmtState) (f : FmtState → Except String FmtState),
        (Except.ok s >>= f) = f s := fun _ _ => rfl
    rw [hbind]
    have hset : objSetFmt F p.1 (parseAttr p.2) = F ++ [(p.1, parseAttr p.2)] :=
      objSetFmt_fresh F p.1 (parseAttr p.2) (fun q hq => hfr p (List.mem_cons_self p Z) q hq)
    have hrec := c1_attr_fold Z (F ++ [(p.1, parseAttr p.2)]) (some 2)
      (by
        intro u hu q hq
        rcases List.mem_append.mp hq with h | h
        · exact hfr u (List.mem_cons_of_mem p hu) q h
        · have hq1 : q.1 = p.1 := by
            have hqe : q = (p.1, parseAttr p.2) := by simpa using h
            rw [hqe]
          rw [hq1]
          have hne : p.1 ∉ Z.map (·.1) := by
            rw [List.map_cons] at hnd
            exact (List.nodup_cons.mp hnd).1
          exact fun he => hne (he ▸ List.mem_map_of_mem (·.1) hu)
      )
      (by rw [List.map_cons] at hnd; exact (List.nodup_cons.mp hnd).2)
      (fun u hu => hA1 u (List.mem_cons_of_mem p hu))
    obtain ⟨br2, hrec⟩ := hrec
    refine ⟨br2, ?_⟩
    simp only [hset] at *
    rw [hrec]
    simp

theorem map_fst_zip_of_len :
    ∀ (as bs : List String), as.length = bs.length → (as.zip bs).map (·.1) = as
  | [], bs, _ => by simp
  | a :: as, [], h => by simp at h
  | a :: as, b :: bs, h => by
    simp only [List.zip_cons_cons, List.map_cons]
    rw [map_fst_zip_of_len as bs (by simpa using h)]

/-- Folding a plain tabular grid: the options collect the column
descriptors and the record list is one flat object per data row. -/
theorem c1_fold (cols keys : List String) (rows : List (List String))
    (hcnd : cols.Nodup) (hlen : cols.length = keys.length)
    (hknd : keys.Nodup) (hhead : keys.head? = some "_id")
    (hplain : ∀ k ∈ keys, plainKey k)
    (hrows : ∀ v ∈ rows, v.length = keys.length)
    (hopt : ∀ cl ∈ mkPlainGrid cols keys rows, cl.cell ≠ "A1") :
    spreadFormat defaultInstOpts (mkPlainGrid cols keys rows) =
      .ok { opts := c1FoldOpts cols keys, list := c1Records keys rows } := by
  cases keys with
  | nil => simp at hhead
  | cons k0 ktl =>
  have hk0 : k0 = "_id" := by simpa using hhead
  subst hk0
  cases cols with
  | nil => simp at hlen
  | cons c0 ctl =>
  have hlen' : ctl.length = ktl.length := by simpa using hlen
  rw [spreadFormat, mkPlainGrid, List.foldlM_append]
  have hinit : initFmtState defaultInstOpts =
      { opts := { attr_line := 2, data_line := 4, ref_keys := ["_id"], format := [],
                  key := none, type := none, name := none },
        beforeRow := none, idx := [], list := [] } := rfl
  rw [hinit, attrCells]
  have hattr := c1_attr_fold ((c0 :: ctl).zip ("_id" :: ktl)) [] none
    (fun p _ q hq => absurd hq (List.not_mem_nil q))
    (by
      rw [map_fst_zip_of_len (c0 :: ctl) ("_id" :: ktl) hlen]
      exact hcnd)
    (fun p hp => by
      refine hopt ⟨p.1 ++ "2", p.1, 2, p.2⟩ ?_
      rw [mkPlainGrid]
      refine List.mem_append_left _ ?_
      rw [attrCells]
      exact List.mem_map_of_mem _ hp)
  obtain ⟨br2, hattr⟩ := hattr
  rw [hattr]
  have hbind : ∀ (s : FmtState) (f : FmtState → Except String FmtState),
      (Except.ok s >>= f) = f s := fun _ _ => rfl
  rw [hbind]
  have hopts :
      ({ attr_line := 2, data_line := 4, ref_keys := ["_id"],
         format := [] ++ ((c0 :: ctl).zip ("_id" :: ktl)).map (fun p => (p.1, parseAttr p.2)),
         key := none, type := none, name := none } : FOpts) =
      c1FoldOpts (c0 :: ctl) ("_id" :: ktl) := by
    rw [c1FoldOpts]
    simp
  rw [hopts]
  have hdata := c1_rows c0 ctl ktl hcnd hlen' hplain hknd rows 4 (by omega) br2 []
    (fun v hv => by rw [hrows v hv]; simp)
    (fun cl hcl => hopt cl (by
      rw [mkPlainGrid]
      exact List.mem_append_right _ hcl))
  obtain ⟨br3, hdata⟩ := hdata
  rw [hdata]
  simp [Except.map]

theorem toList_ne_nil (k : String) (h : k ≠ "") : k.toList ≠ [] := by
  intro he
  apply h
  cases k with
  | mk l => cases he; rfl

theorem contains_hash_false (k : String)
    (h : ∀ c ∈ k.toList, c ≠ '#') : k.toList.contains '#' = false := by
  have hnm : '#' ∉ k.toList := fun hm => h '#' hm rfl
  simpa using hnm

theorem findColon_none :
    ∀ (j : Nat) (cs : List Char), (∀ c ∈ cs, c ≠ ':') →
      typeAfterLastColon.findColon j cs = none
  | _, [], _ => rfl
  | j, c :: cs, h => by
    have hstep : typeAfterLastColon.findColon j (c :: cs) =
        if c = ':' then some j else typeAfterLastColon.findColon (j + 1) cs := rfl
    rw [hstep, if_neg (h c (List.mem_cons_self c cs)),
      findColon_none (j + 1) cs (fun x hx => h x (List.mem_cons_of_mem c hx))]

/-- A colon-free attribute is its own cell type name. -/
theorem typeAfterLastColon_plain (k : String)
    (h : ∀ c ∈ k.toList, c ≠ ':') : typeAfterLastColon k = k := by
  rw [typeAfterLastColon]
  cases hrev : k.toList.reverse with
  | nil => rfl
  | cons c rest =>
    have hsub : ∀ x ∈ rest, x ≠ ':' := by
      intro x hx
      refine h x ?_
      rw [← List.mem_reverse, hrev]
      exact List.mem_cons_of_mem c hx
    simp only [findColon_none 0 rest hsub]

theorem stripColonRest_go_plain (s : String) :
    ∀ (cs acc : List Char), (∀ c ∈ cs, c ≠ ':') →
      stripColonRest.go s acc cs = s
  | [], _, _ => rfl
  | c :: cs, acc, h => by
    have hc := h c (List.mem_cons_self c cs)
    have hstep : stripColonRest.go s acc (c :: cs) =
        if c = ':' then (if cs ≠ [] then String.mk acc.reverse else s)
        else stripColonRest.go s (c :: acc) cs := by
      rcases hcc : c with _
      rw [stripColonRest.go.eq_def]
      split <;> simp_all
    rw [hstep, if_neg hc,
      stripColonRest_go_plain s cs (c :: acc) (fun x hx => h x (List.mem_cons_of_mem c hx))]

theorem stripColonRest_plain (k : String)
    (h : ∀ c ∈ k.toList, c ≠ ':') : stripColonRest k = k := by
  rw [stripColonRest]
  exact stripColonRest_go_plain k k.toList [] h

theorem removeFirstChar_go_none (t : Char) (s : String) :
    ∀ (cs acc : List Char), (∀ c ∈ cs, c ≠ t) →
      removeFirstChar.go t s acc cs = s
  | [], _, _ => rfl
  | c :: cs, acc, h => by
    have hstep : removeFirstChar.go t s acc (c :: cs) =
        if c = t then String.mk (acc.reverse ++ cs)
        else removeFirstChar.go t s (c :: acc) cs := rfl
    rw [hstep, if_neg (h c (List.mem_cons_self c cs)),
      removeFirstChar_go_none t s cs (c :: acc) (fun x hx => h x (List.mem_cons_of_mem c hx))]

theorem removeFirstChar_none (t : Char) (k : String)
    (h : ∀ c ∈ k.toList, c ≠ t) : removeFirstChar t k = k := by
  rw [removeFirstChar]
  exact removeFirstChar_go_none t k k.toList [] h

theorem parsePath_go_plain :
    ∀ (cs : List Char) (fuel : Nat) (acc : List Char), cs.length ≤ fuel →
      (∀ c ∈ cs, c ≠ '.' ∧ c ≠ '[') → (acc ≠ [] ∨ cs ≠ []) →
      parsePath.go fuel acc cs = [String.mk (acc.reverse ++ cs)]
  | [], fuel, acc, _, _, hne => by
    have hacc : acc ≠ [] := by
      rcases hne with h | h
      · exact h
      · exact absurd rfl h
    cases fuel with
    | zero => simp [parsePath.go, hacc]
    | succ n => simp [parsePath.go, hacc]
  | c :: cs, fuel, acc, hf, h, _ => by
    cases fuel with
    | zero => simp at hf
    | succ n =>
      have hc := h c (List.mem_cons_self c cs)
      have hstep : parsePath.go (n + 1) acc (c :: cs) =
          if c = '.' then
            (if acc = [] then [] else [String.mk acc.reverse]) ++ parsePath.go n [] cs
          else if c = '[' then
            (if acc = [] then [] else [String.mk acc.reverse]) ++
              String.mk (cs.takeWhile (· ≠ ']')) ::
                parsePath.go n [] ((cs.drop (cs.takeWhile (· ≠ ']')).length).drop 1)
          else parsePath.go n (c :: acc) cs := by
        rw [parsePath.go.eq_def]
        split <;> simp_all
      rw [hstep, if_neg hc.1, if_neg hc.2,
        parsePath_go_plain cs n (c :: acc) (by simpa using hf)
          (fun x hx => h x (List.mem_cons_of_mem c hx)) (Or.inl (by simp))]
      simp

/-- A plain key is a one-segment lodash path. -/
theorem parsePath_plain (k : String) (hne : k ≠ "")
    (h : ∀ c ∈ k.toList, c ≠ '.' ∧ c ≠ '[') : parsePath k = [k] := by
  rw [parsePath,
    parsePath_go_plain k.toList k.toList.length [] (by omega) h
      (Or.inr (toList_ne_nil k hne))]
  simp [strMk_toList]

theorem objFind_zip :
    ∀ (keys : List String) (vs : List JVal), keys.Nodup →
      ∀ (k : String) (v : JVal), (k, v) ∈ keys.zip vs → objFind (keys.zip vs) k = v
  | [], _, _, k, v, hm => by simp at hm
  | k0 :: keys, [], _, k, v, hm => by simp at hm
  | k0 :: keys, v0 :: vs, hnd, k, v, hm => by
    rw [List.zip_cons_cons] at hm
    rcases List.mem_cons.mp hm with he | hm2
    · have h1 : k = k0 ∧ v = v0 := by simpa using he
      obtain ⟨rfl, rfl⟩ := h1
      rw [List.zip_cons_cons, objFind_cons]
      simp
    · have hk : k ∈ keys := (List.of_mem_zip hm2).1
      have hne : ¬ (k0 = k) := fun he2 => (List.nodup_cons.mp hnd).1 (he2 ▸ hk)
      rw [List.zip_cons_cons, objFind_cons, if_neg hne]
      exact objFind_zip keys vs (List.nodup_cons.mp hnd).2 k v hm2

theorem zip_map_mem :
    ∀ (as : List String) (bs : List String) (k x : String),
      (k, x) ∈ as.zip bs → (k, JVal.str x) ∈ as.zip (bs.map JVal.str)
  | [], _, k, x, hm => by simp at hm
  | a :: as, [], k, x, hm => by simp at hm
  | a :: as, b :: bs, k, x, hm => by
    rw [List.zip_cons_cons] at hm
    rw [List.map_cons, List.zip_cons_cons]
    rcases List.mem_cons.mp hm with he | hm2
    · have h1 : k = a ∧ x = b := by simpa using he
      obtain ⟨rfl, rfl⟩ := h1
      exact List.mem_cons_self _ _
    · exact List.mem_cons_of_mem _ (zip_map_mem as bs k x hm2)

theorem stringifyRegistry_plain (k : String) (hd : k ≠ "date") :
    (stringifyRegistry k).getD id = id := by
  rw [stringifyRegistry]
  split_ifs <;> simp_all

/-- `addCellAttr` on a plain attribute whose value in the record is a
string: exactly one cell comes out, at the attribute's column. -/
theorem addCellAttr_plain (data : JVal) (row : Int) (i : Nat) (k : String) (v : String)
    (hp : plainKey k) (hval : getByPath data (parsePath k) = .str v) :
    addCellAttr data row i k = ([OutCell.mk (i + 1) row (.str v)], []) := by
  have hhead := plain_headIs k hp
  obtain ⟨hne, hc, -, -, hdate⟩ := hp
  have hsplit : splitChar '.' k = [k] := splitChar_no_sep '.' k (fun c h => (hc c h).1)
  have hhash : k.toList.contains '#' = false :=
    contains_hash_false k (fun c h => (hc c h).2.1)
  have hty : typeAfterLastColon k = k :=
    typeAfterLastColon_plain k (fun c h => (hc c h).2.2.2.1)
  have hstrip : stripColonRest k = k :=
    stripColonRest_plain k (fun c h => (hc c h).2.2.2.1)
  have hdollar : removeFirstChar '$' k = k :=
    removeFirstChar_none '$' k (fun c h => (hc c h).2.2.1)
  rw [addCellAttr]
  simp only [hsplit, hhash, hty, hstrip, hdollar, List.getLast?_singleton, Option.getD_some,
    hhead.2, Bool.false_eq_true, if_false, hval, stringifyRegistry_plain k hdate]
  simp [isUndef]

theorem addCellFold_plain (data : JVal) (row : Int) :
    ∀ (Z : List (String × String)) (j : Nat) (cs0 : List OutCell) (m0 : Int),
      (∀ p ∈ Z, plainKey p.1 ∧ getByPath data (parsePath p.1) = .str p.2) →
      List.foldl
        (fun st p =>
          let (cs, rows) := addCellAttr data row p.1 p.2
          (st.1 ++ cs, rows.foldl max st.2))
        (cs0, m0) ((Z.enumFrom j).map (Prod.map id (·.1))) =
      (cs0 ++ (Z.enumFrom j).map (fun q => OutCell.mk ((q.1 : Int) + 1) row (.str q.2.2)), m0)
  | [], j, cs0, m0, _ => by simp
  | p :: Z, j, cs0, m0, h => by
    obtain ⟨k, v⟩ := p
    have hh := h (k, v) (List.mem_cons_self _ _)
    rw [List.enumFrom_cons, List.map_cons, List.foldl_cons]
    simp only [Prod.map_apply, id_eq]
    simp only [addCellAttr_plain data row j k v hh.1 hh.2]
    exact (addCellFold_plain data row Z (j + 1)
      (cs0 ++ [OutCell.mk ((j : Int) + 1) row (.str v)]) m0
      (fun q hq => h q (List.mem_cons_of_mem _ hq))).trans (by simp)

theorem enum_zip_out (row : Int) :
    ∀ (as bs : List String) (j : Nat), as.length = bs.length →
      ((as.zip bs).enumFrom j).map (fun q => OutCell.mk ((q.1 : Int) + 1) row (.str q.2.2)) =
      (bs.enumFrom j).map (fun q => OutCell.mk ((q.1 : Int) + 1) row (.str q.2))
  | [], bs, j, h => by
    cases bs with
    | nil => simp
    | cons b bs => simp at h
  | a :: as, [], j, h => by simp at h
  | a :: as, b :: bs, j, h => by
    rw [List.zip_cons_cons, List.enumFrom_cons, List.enumFrom_cons, List.map_cons,
      List.map_cons, enum_zip_out row as bs (j + 1) (by simpa using h)]

/-- `addCell` on a flat string record: one cell per attribute, in
order, and `maxRow` unchanged. -/
theorem addCell_plain (keys vals : List String) (row maxRow : Int)
    (hnd : keys.Nodup) (hlen : keys.length = vals.length)
    (hplain : ∀ k ∈ keys, plainKey k) :
    addCell keys (.obj (keys.zip (vals.map JVal.str))) row maxRow =
      (vals.enum.map (fun q => OutCell.mk ((q.1 : Int) + 1) row (.str q.2)), maxRow) := by
  rw [addCell]
  have h1 : ((keys.zip vals).map (·.1)).enum = ((keys.zip vals).enum).map (Prod.map id (·.1)) :=
    List.enum_map _ _
  rw [map_fst_zip_of_len keys vals hlen] at h1
  rw [h1, List.enum, List.enum,
    addCellFold_plain (.obj (keys.zip (vals.map JVal.str))) row (keys.zip vals) 0 [] maxRow
      (by
        intro p hp
        have hk : p.1 ∈ keys := (List.of_mem_zip hp).1
        have hkp := hplain p.1 hk
        refine ⟨hkp, ?_⟩
        obtain ⟨hne, hc, -⟩ := hkp
        rw [parsePath_plain p.1 hne (fun c h => ⟨(hc c h).1, (hc c h).2.2.2.2.1⟩)]
        show jprop (.obj (keys.zip (vals.map JVal.str))) p.1 = .str p.2
        rw [jprop]
        exact objFind_zip keys (vals.map JVal.str) hnd p.1 (.str p.2)
          (zip_map_mem keys vals p.1 p.2 hp)),
    List.nil_append, enum_zip_out row keys vals 0 hlen]

/-- The output cells of consecutive flat string rows, one row per
record from row `r` down. -/
def c1OutRows : List (List String) → Int → List OutCell
  | [], _ => []
  | v :: vs, r =>
      (v.enum.map fun q => OutCell.mk ((q.1 : Int) + 1) r (.str q.2)) ++ c1OutRows vs (r + 1)

theorem origDataCells_shift :
    ∀ (rows : List (List String)) (n : Nat),
      (rows.enumFrom n).flatMap
        (fun p => p.2.enum.map fun q => OutCell.mk ((q.1 : Int) + 1) ((4 : Int) + p.1) (.str q.2)) =
      c1OutRows rows (4 + n)
  | [], n => by simp [c1OutRows]
  | v :: vs, n => by
    rw [List.enumFrom_cons, List.flatMap_cons, c1OutRows,
      origDataCells_shift vs (n + 1)]
    have hn : ((4 : Int) + (n + 1 : Nat)) = (4 + (n : Int)) + 1 := by push_cast; ring
    rw [hn]

/-- `origDataCells` written as consecutive output rows. -/
theorem origDataCells_eq (rows : List (List String)) :
    origDataCells rows = c1OutRows rows 4 := by
  have h := origDataCells_shift rows 0
  rw [origDataCells, List.enum]
  simpa using h

/-- The record loop of `toCells` on flat string records: one output
row per record, rows advancing by one. -/
theorem c1_datas_fold (keys : List String) (hnd : keys.Nodup)
    (hplain : ∀ k ∈ keys, plainKey k) :
    ∀ (rows : List (List String)) (r : Int) (cs0 : List OutCell),
      (∀ v ∈ rows, v.length = keys.length) →
      List.foldl
        (fun (st : List OutCell × Int × Int) (data : JVal) =>
          ((st.1 ++ (addCell keys data st.2.2 st.2.1).1,
            (addCell keys data st.2.2 st.2.1).2 + 1,
            (addCell keys data st.2.2 st.2.1).2 + 1) : List OutCell × Int × Int))
        (cs0, r, r) (c1Records keys rows) =
      (cs0 ++ c1OutRows rows r, r + rows.length, r + rows.length)
  | [], r, cs0, _ => by simp [c1Records, c1OutRows]
  | v :: vs, r, cs0, hvl => by
    have hvlen : keys.length = v.length := (hvl v (List.mem_cons_self v vs)).symm
    rw [show c1Records keys (v :: vs) =
        .obj (keys.zip (v.map JVal.str)) :: c1Records keys vs from rfl]
    rw [List.foldl_cons]
    simp only [addCell_plain keys v r r hnd hvlen hplain]
    refine ((c1_datas_fold keys hnd hplain vs (r + 1)
      (cs0 ++ v.enum.map fun q => OutCell.mk ((q.1 : Int) + 1) r (.str q.2))
      (fun u hu => hvl u (List.mem_cons_of_mem v hu))).trans ?_)
    rw [c1OutRows]
    simp only [List.append_assoc, List.length_cons, Prod.mk.injEq]
    refine ⟨trivial, ?_, ?_⟩ <;> push_cast <;> ring

theorem insertCellS_cons_not (x y : OutCell) (ys : List OutCell)
    (h : cellLt y x = false) : insertCellS x (y :: ys) = x :: y :: ys := by
  rw [insertCellS, h]
  simp

/-- A stable sort leaves an already-sorted list unchanged. -/
theorem sortCells_sorted_id :
    ∀ l : List OutCell, l.Pairwise (fun a b => cellLt b a = false) → sortCells l = l
  | [], _ => rfl
  | [x], _ => rfl
  | x :: y :: ys, h => by
    rw [sortCells, sortCells_sorted_id (y :: ys) (List.pairwise_cons.mp h).2]
    exact insertCellS_cons_not x y ys
      ((List.pairwise_cons.mp h).1 y (List.mem_cons_self y ys))

theorem cellLt_false_of_row_lt (a b : OutCell) (h : a.row < b.row) :
    cellLt b a = false := by
  simp [cellLt]
  omega

theorem cellLt_false_of_row_eq_col_le (a b : OutCell) (h1 : b.row = a.row)
    (h2 : a.col ≤ b.col) : cellLt b a = false := by
  simp [cellLt]
  omega

theorem enumFrom_fst_le {α : Type} :
    ∀ (v : List α) (n : Nat) (p : Nat × α), p ∈ v.enumFrom n → n ≤ p.1
  | [], _, _, hm => by simp at hm
  | a :: v, n, p, hm => by
    rw [List.enumFrom_cons] at hm
    rcases List.mem_cons.mp hm with he | hm2
    · rw [he]
    · have := enumFrom_fst_le v (n + 1) p hm2
      omega

theorem enumFrom_fst_pairwise {α : Type} :
    ∀ (v : List α) (n : Nat), (v.enumFrom n).Pairwise (fun p q => p.1 < q.1)
  | [], _ => List.Pairwise.nil
  | a :: v, n => by
    rw [List.enumFrom_cons, List.pairwise_cons]
    exact ⟨fun q hq => by have := enumFrom_fst_le v (n + 1) q hq; omega,
      enumFrom_fst_pairwise v (n + 1)⟩

/-- One output row block is sorted (single row, columns ascending). -/
theorem rowBlock_pairwise (v : List String) (r : Int) :
    (v.enum.map fun q => OutCell.mk ((q.1 : Int) + 1) r (.str q.2)).Pairwise
      (fun a b => cellLt b a = false) := by
  rw [List.pairwise_map]
  refine (enumFrom_fst_pairwise v 0).imp ?_
  intro p q h
  exact cellLt_false_of_row_eq_col_le _ _ rfl (by push_cast; omega)

theorem c1OutRows_row_ge :
    ∀ (rows : List (List String)) (r : Int) (cl : OutCell),
      cl ∈ c1OutRows rows r → r ≤ cl.row
  | [], _, _, hm => by simp [c1OutRows] at hm
  | v :: vs, r, cl, hm => by
    rw [c1OutRows] at hm
    rcases List.mem_append.mp hm with h | h
    · obtain ⟨q, -, he⟩ := List.mem_map.mp h
      rw [← he]
    · have := c1OutRows_row_ge vs (r + 1) cl h
      omega

theorem c1OutRows_row_eq (v : List String) (r : Int) (cl : OutCell)
    (hm : cl ∈ v.enum.map fun q => OutCell.mk ((q.1 : Int) + 1) r (.str q.2)) :
    cl.row = r := by
  obtain ⟨q, -, he⟩ := List.mem_map.mp hm
  rw [← he]

/-- The data cells of consecutive rows are sorted. -/
theorem c1OutRows_pairwise :
    ∀ (rows : List (List String)) (r : Int),
      (c1OutRows rows r).Pairwise (fun a b => cellLt b a = false)
  | [], _ => List.Pairwise.nil
  | v :: vs, r => by
    rw [c1OutRows, List.pairwise_append]
    refine ⟨rowBlock_pairwise v r, c1OutRows_pairwise vs (r + 1), ?_⟩
    intro a ha b hb
    refine cellLt_false_of_row_lt a b ?_
    have h1 : a.row = r := c1OutRows_row_eq v r a ha
    have h2 : r + 1 ≤ b.row := c1OutRows_row_ge vs (r + 1) b hb
    omega

/-- Flattening the folded records of a plain grid reproduces exactly
the original data cells. -/
theorem c1_flatten (keys : List String) (rows : List (List String))
    (hknd : keys.Nodup) (hplain : ∀ k ∈ keys, plainKey k)
    (hrows : ∀ v ∈ rows, v.length = keys.length) :
    ((toCells defaultInstOpts
      { opts := .obj [], format := keys, description := [],
        datas := c1Records keys rows, name := none }).cells.filter
      fun c => (4 : Int) ≤ c.row) = origDataCells rows := by
  rw [origDataCells_eq rows]
  show ((sortCells
      (OutCell.mk 1 1 (.str ((jsonStringify (.obj [])).getD "")) ::
        ((keys.enum.map fun p => OutCell.mk ((p.1 : Int) + 1) 2 (.str p.2)) ++ [] ++
          (List.foldl
            (fun (st : List OutCell × Int × Int) (data : JVal) =>
              ((st.1 ++ (addCell keys data st.2.2 st.2.1).1,
                (addCell keys data st.2.2 st.2.1).2 + 1,
                (addCell keys data st.2.2 st.2.1).2 + 1) : List OutCell × Int × Int))
            ([], 4, 4) (c1Records keys rows)).1))).filter
      fun c => (4 : Int) ≤ c.row) = c1OutRows rows 4
  rw [c1_datas_fold keys hknd hplain rows 4 [] hrows]
  simp only [List.nil_append, List.append_nil]
  have hsorted : (OutCell.mk 1 1 (.str ((jsonStringify (.obj [])).getD "")) ::
      ((keys.enum.map fun p => OutCell.mk ((p.1 : Int) + 1) 2 (.str p.2)) ++
        c1OutRows rows 4)).Pairwise (fun a b => cellLt b a = false) := by
    rw [List.pairwise_cons, List.pairwise_append]
    refine ⟨?_, rowBlock_pairwise keys 2, c1OutRows_pairwise rows 4, ?_⟩
    · intro b hb
      rcases List.mem_append.mp hb with h | h
      · refine cellLt_false_of_row_lt _ b ?_
        rw [c1OutRows_row_eq keys 2 b h]
        norm_num
      · refine cellLt_false_of_row_lt _ b ?_
        have := c1OutRows_row_ge rows 4 b h
        show (1 : Int) < b.row
        omega
    · intro a ha b hb
      refine cellLt_false_of_row_lt a b ?_
      rw [c1OutRows_row_eq keys 2 a ha]
      have := c1OutRows_row_ge rows 4 b hb
      omega
  rw [sortCells_sorted_id _ hsorted]
  rw [List.filter_cons]
  have hopt : (decide ((4 : Int) ≤ (OutCell.mk 1 1
      (.str ((jsonStringify (.obj [])).getD ""))).row)) = false := by decide
  rw [hopt]
  simp only [Bool.false_eq_true, if_false]
  rw [List.filter_append]
  have hfmt : ((keys.enum.map fun p => OutCell.mk ((p.1 : Int) + 1) 2 (.str p.2)).filter
      fun c => (4 : Int) ≤ c.row) = [] := by
    rw [List.filter_eq_nil_iff]
    intro a ha
    have hr2 := c1OutRows_row_eq keys 2 a ha
    simp [hr2]
  have hdata : ((c1OutRows rows 4).filter fun c => (4 : Int) ≤ c.row) =
      c1OutRows rows 4 := by
    rw [List.filter_eq_self]
    intro a ha
    have := c1OutRows_row_ge rows 4 a ha
    simpa using this
  rw [hfmt, hdata]
  simp

/-- C1, amended.  On plain tabular grids — pairwise-distinct untyped
marker-free attribute keys led by the default ref key `_id` in header
row 2, and full consecutive data rows from row 4 — the pair is
inverse: `_format` folds the grid to one flat record per row with the
column descriptors in `opts.format`, and `toCells` on the folded
records emits exactly the original data cells (value, column position
and row all preserved).  The unrestricted claim is refuted by
`c1_counterexample`: with duplicate attribute keys the first-write-wins
fold erases data that flattening cannot restore. -/
theorem c1_roundtrip_amended (cols keys : List String) (rows : List (List String))
    (hcnd : cols.Nodup) (hlen : cols.length = keys.length)
    (hknd : keys.Nodup) (hhead : keys.head? = some "_id")
    (hplain : ∀ k ∈ keys, plainKey k)
    (hrows : ∀ v ∈ rows, v.length = keys.length)
    (hopt : ∀ cl ∈ mkPlainGrid cols keys rows, cl.cell ≠ defaultInstOpts.option_cell) :
    spreadFormat defaultInstOpts (mkPlainGrid cols keys rows) =
      .ok { opts := c1FoldOpts cols keys, list := c1Records keys rows } ∧
    ((toCells defaultInstOpts
      { opts := .obj [], format := keys, description := [],
        datas := c1Records keys rows, name := none }).cells.filter
      fun c => (4 : Int) ≤ c.row) = origDataCells rows :=
  ⟨c1_fold cols keys rows hcnd hlen hknd hhead hplain hrows hopt,
   c1_flatten keys rows hknd hplain hrows⟩

/-- C1 witness: a two-column two-row plain grid round-trips. -/
theorem c1_roundtrip_amended_witness :
    spreadFormat defaultInstOpts (mkPlainGrid ["A", "B"] ["_id", "a"] [["x", "1"], ["y", "2"]]) =
      .ok { opts := c1FoldOpts ["A", "B"] ["_id", "a"],
            list := c1Records ["_id", "a"] [["x", "1"], ["y", "2"]] } ∧
    ((toCells defaultInstOpts
      { opts := .obj [], format := ["_id", "a"], description := [],
        datas := c1Records ["_id", "a"] [["x", "1"], ["y", "2"]], name := none }).cells.filter
      fun c => (4 : Int) ≤ c.row) = origDataCells [["x", "1"], ["y", "2"]] :=
  c1_roundtrip_amended ["A", "B"] ["_id", "a"] [["x", "1"], ["y", "2"]]
    (by decide) (by decide) (by decide) (by decide) (by decide) (by decide) (by decide)
